import Mathlib

/-!
Verification of the MU0 emulator (repository m-pilia/mu0).

The repository contains two Python variants of the same emulator:
`mu0.py` (command-line) and `mu0_graphic.py` (GUI).  This file gives a
shallow embedding of both:

* the canonical execution engine (`exec`, `step`, `run`), transcribed from
  the execution loop of `mu0.py` (lines 130-188), which coincides with the
  GUI's `runInstruction` on canonical uppercase opcodes;
* the GUI execution engine (`gexec`, `gstep`), transcribed from
  `Application.runInstruction` of `mu0_graphic.py`, which dispatches on the
  stored opcode *string* with case-sensitive comparisons;
* the two's-complement helpers (`decode`, `encode`) from the initializer
  parsing and the memory dump;
* the line recognizers of both variants (`cliMatchLine`, `guiMatchLine`),
  hand-transcribed from the regular expressions, and the parsing loops
  (`cliParseFrom`, `gparseFrom`).

Memory is the Python dict `memory`, embedded as `Nat → Option Int`:
absent keys are `none` (a read of an absent key raises `KeyError` in the
source, giving the `Fault` outcome).  The accumulator is an unbounded
`Int`, exactly like a Python integer.
-/

namespace Mu0

/-- Two's-complement decoding used when parsing an `INI` literal
(`mu0.py` lines 96-98, `mu0_graphic.py` lines 221-223):
a raw value above `0x7FF` has `0x1000` subtracted. -/
def decode (raw : Int) : Int :=
  if raw > 0x7FF then raw - 0x1000 else raw

/-- Two's-complement encoding used by the memory dump and status display
(`mu0.py` lines 34-35: `v if v >= 0 else v + 0x1000`). -/
def encode (s : Int) : Int :=
  if s ≥ 0 then s else s + 0x1000

/-- RAM memory: the Python dict, as a partial map from addresses. -/
def Mem : Type := Nat → Option Int

/-- The empty memory (`memory = {}`). -/
def Mem.empty : Mem := fun _ => none

/-- `memory[a] = v` on a Python dict: overwrite or create the key. -/
def Mem.insert (m : Mem) (a : Nat) (v : Int) : Mem :=
  fun x => if x = a then some v else m x

/-- The eight canonical opcodes. -/
inductive Opcode
  | LOAD | STORE | ADD | SUB | JUMP | JGE | JNE | STOP
deriving DecidableEq

/-- A parsed instruction of the command-line variant: the dict
`dict(opc = ..., imm = ..., com = ..., line = ...)` built at
`mu0.py` lines 108-112.  The `imm` of a `STOP` is never read by the
execution loop (the loop breaks before computing it), so it is stored
here as an arbitrary number. -/
structure Instr where
  opc : Opcode
  imm : Nat
  com : Option (List Char)
  line : Nat

/-- Machine state: accumulator, program counter and memory
(`acc`, `pc`, `memory` in the source). -/
structure State where
  acc : Int
  pc : Nat
  memory : Mem

/-- Outcome of one step.  Each terminal constructor carries the machine
state at the moment the outcome occurs (the source leaves the state
inspectable: the fault/halt paths print diagnostics and stop without
mutating further). -/
inductive Outcome
  | Continued (s : State)
  | Halted (s : State)
  | Completed (s : State)
  | Fault (s : State)

/-- Effect of executing one fetched instruction, transcribed from the loop
body of `mu0.py` lines 135-173: the `STOP` check, then the memory-access
phase (`LOAD`/`ADD`/`SUB` inside `try/except KeyError`), then the other
instructions, then the final program-counter increment for every opcode
that is not `JUMP`/`JGE`/`JNE`. -/
def exec (instr : Instr) (s : State) : Outcome :=
  if instr.opc = .STOP then .Halted s
  else
    let immediate := instr.imm
    let acc? : Option Int :=
      match instr.opc with
      | .LOAD => s.memory immediate
      | .ADD => (s.memory immediate).map (fun v => s.acc + v)
      | .SUB => (s.memory immediate).map (fun v => s.acc - v)
      | _ => some s.acc
    match acc? with
    | none => .Fault s
    | some acc =>
      let memory : Mem :=
        if instr.opc = .STORE then Mem.insert s.memory immediate acc else s.memory
      let pc1 : Nat :=
        match instr.opc with
        | .JUMP => immediate
        | .JGE => if acc ≥ 0 then immediate else s.pc + 1
        | .JNE => if acc ≠ 0 then immediate else s.pc + 1
        | _ => s.pc
      let pc2 : Nat :=
        if instr.opc ≠ .JUMP ∧ instr.opc ≠ .JGE ∧ instr.opc ≠ .JNE then pc1 + 1 else pc1
    .Continued ⟨acc, pc2, memory⟩

/-- One step of the engine: the `while pc < len(source)` loop guard of
`mu0.py` line 130 (equivalently the `if self.pc >= len(self.instructions)`
check opening `runInstruction`), then `exec` on the fetched instruction. -/
def step (prog : List Instr) (s : State) : Outcome :=
  if h : s.pc < prog.length then exec (prog.get ⟨s.pc, h⟩) s else .Completed s

/-- Fuel-bounded driver: repeated `step`s; a terminal outcome stops the
run immediately. -/
def run (prog : List Instr) : Nat → State → Outcome
  | 0, s => .Continued s
  | fuel + 1, s =>
    match step prog s with
    | .Continued s₁ => run prog fuel s₁
    | o => o

/-- The fresh machine state: `acc = 0`, `pc = 0`
(`resetProgramStatus`, and the module-level globals of `mu0.py`). -/
def initialState (m : Mem) : State := ⟨0, 0, m⟩

/-- A parsed instruction of the GUI variant (`mu0_graphic.py` lines
233-237): the opcode is stored as the *matched text* of the regex group,
which preserves the original letter case.  The immediate field holds the
number decoded from the operand text; the `STOP` form stores the empty
void group, whose lazy `int(..., 16)` conversion would raise, so it is
embedded as `none`. -/
structure GInstr where
  opc : String
  imm : Option Nat
  com : Option String
  line : Nat
deriving DecidableEq

/-- Outcome of one GUI step.  `Halted` and `Completed` are the two
`ExecutionComplete` messages ("Reached STOP instruction" and "End of
program reached"); `Fault` is the `KeyError` handler (which prints and
quits); `Crash` is the uncaught `ValueError` of `int('', 16)` when a
non-`STOP` dispatch reaches the void immediate of a `STOP`-form line. -/
inductive GOutcome
  | Continued (s : State)
  | Halted (s : State)
  | Completed (s : State)
  | Fault (s : State)
  | Crash (s : State)

/-- Effect of one fetched instruction in the GUI variant, transcribed from
`Application.runInstruction` (`mu0_graphic.py` lines 256-317).  All opcode
comparisons are case-sensitive string comparisons, exactly as in the
source; note that the final increment check at line 303 lists only
`"JUMP"`, `"JGE"`, `"JNE"` and not the alias `"JMP"`. -/
def gexec (instr : GInstr) (s : State) : GOutcome :=
  if instr.opc = "STOP" then .Halted s
  else
    match instr.imm with
    | none => .Crash s
    | some immediate =>
      let acc? : Option Int :=
        if instr.opc = "LOAD" ∨ instr.opc = "LDA" then s.memory immediate
        else if instr.opc = "ADD" then (s.memory immediate).map (fun v => s.acc + v)
        else if instr.opc = "SUB" then (s.memory immediate).map (fun v => s.acc - v)
        else some s.acc
      match acc? with
      | none => .Fault s
      | some acc =>
        let memory : Mem :=
          if instr.opc = "STORE" ∨ instr.opc = "STO" then Mem.insert s.memory immediate acc
          else s.memory
        let pc1 : Nat :=
          if instr.opc = "JUMP" ∨ instr.opc = "JMP" then immediate
          else if instr.opc = "JGE" then (if acc ≥ 0 then immediate else s.pc + 1)
          else if instr.opc = "JNE" then (if acc ≠ 0 then immediate else s.pc + 1)
          else s.pc
        let pc2 : Nat :=
          if instr.opc ≠ "JUMP" ∧ instr.opc ≠ "JGE" ∧ instr.opc ≠ "JNE" then pc1 + 1 else pc1
      .Continued ⟨acc, pc2, memory⟩

/-- One GUI step: the end-of-program check of `runInstruction`
(`if self.pc >= len(self.instructions)`), then `gexec`. -/
def gstep (prog : List GInstr) (s : State) : GOutcome :=
  if h : s.pc < prog.length then gexec (prog.get ⟨s.pc, h⟩) s else .Completed s

/-! ## Line recognition

The recognizers below are hand transcriptions of the regular expressions
of the two variants.  A bounded `{1,3}` hex-digit group followed by a
non-hex boundary is transcribed as maximal munch with a length check; the
first operand of an `INI` line can be followed directly by the `0x` of
the second operand (whose `0` is itself a hex digit), so its `{1,3}`
group keeps the regex's greedy backtracking, trying three digits, then
two, then one. -/

/-- Hex digit class `[0-9A-Fa-f]`. -/
def isHexCh (c : Char) : Bool :=
  c.isDigit || ('A' ≤ c && c ≤ 'F') || ('a' ≤ c && c ≤ 'f')

/-- Value of one hex digit. -/
def hexDigitVal (c : Char) : Nat :=
  if c.isDigit then c.toNat - 48 else if 'a' ≤ c then c.toNat - 87 else c.toNat - 55

/-- Value of a hex-digit string, as computed by `int(text, 16)`. -/
def hexToNat (ds : List Char) : Nat :=
  ds.foldl (fun a c => 16 * a + hexDigitVal c) 0

/-- Drop a maximal run of characters of the class `ws` (a greedy
`[ \t]*` or ` *` group followed by a non-`ws` token). -/
def dropWs (ws : Char → Bool) : List Char → List Char
  | [] => []
  | c :: cs => if ws c then dropWs ws cs else c :: cs

/-- Character comparison of a pattern literal, optionally ignoring case
(`re.I`). -/
def chEq (ci : Bool) (p c : Char) : Bool :=
  if ci then p.toLower == c.toLower else p == c

/-- Strip a literal from the front of the input, or fail. -/
def stripLit (ci : Bool) : List Char → List Char → Option (List Char)
  | [], cs => some cs
  | _ :: _, [] => none
  | p :: ps, c :: cs => if chEq ci p c then stripLit ci ps cs else none

/-- The whitespace class of the CLI regexes: a space only. -/
def cliWs (c : Char) : Bool := c == ' '

/-- The whitespace class of the GUI regexes: `[ \t]`. -/
def guiWs (c : Char) : Bool := c == ' ' || c == '\t'

/-- Does the rest of the line match ` *(;+...)?$` — i.e. whitespace and
then either end of line or a comment introduced by `;`? -/
def tailOk (ws : Char → Bool) (cs : List Char) : Bool :=
  match dropWs ws cs with
  | [] => true
  | c :: _ => c == ';'

/-- Match `(;+ *(.*))?$`: end of line gives no comment, otherwise one or
more `;` then whitespace then the comment text, captured verbatim. -/
def commentTail (ws : Char → Bool) : List Char → Option (Option (List Char))
  | [] => some none
  | c :: r =>
    if c == ';' then some (some (dropWs ws (r.dropWhile (fun d => d == ';')))) else none

/-- Match an instruction operand and line tail:
`(0x[0-9A-Fa-f]{1,3}) *(;+ *(.*))?$`.  The character after the digit
group must be whitespace, `;` or the end of the line, none of which is a
hex digit, so maximal munch is equivalent to the regex. -/
def matchOperandTail (ci : Bool) (ws : Char → Bool) (cs : List Char) :
    Option (Nat × Option (List Char)) :=
  match stripLit ci ['0', 'x'] cs with
  | none => none
  | some cs₁ =>
    let p := cs₁.span isHexCh
    if 1 ≤ p.1.length ∧ p.1.length ≤ 3 then
      match commentTail ws (dropWs ws p.2) with
      | none => none
      | some com => some (hexToNat p.1, com)
    else none

/-- Match the second (`value`) operand of an `INI` line and the line
tail: `(0x[0-9A-Fa-f]{1,3}) *(;+...)?$`. -/
def matchValueTail (ci : Bool) (ws : Char → Bool) (cs : List Char) : Option Nat :=
  match stripLit ci ['0', 'x'] cs with
  | none => none
  | some cs₁ =>
    let p := cs₁.span isHexCh
    if 1 ≤ p.1.length ∧ p.1.length ≤ 3 ∧ tailOk ws p.2 then some (hexToNat p.1) else none

/-- Try to split the address digit run of an `INI` line after exactly `k`
digits and match the rest of the line from there. -/
def iniTryAddr (ci : Bool) (ws : Char → Bool) (ds rest : List Char) (k : Nat) :
    Option (Nat × Nat) :=
  if k ≤ ds.length then
    match matchValueTail ci ws (dropWs ws (ds.drop k ++ rest)) with
    | none => none
    | some v => some (hexToNat (ds.take k), v)
  else none

/-- Match `(0x[0-9A-Fa-f]{1,3}) *(0x[0-9A-Fa-f]{1,3}) *(;+...)?$`, the two
operands of an `INI` line, with the greedy three-two-one backtracking of
the first `{1,3}` group. -/
def matchIniOperands (ci : Bool) (ws : Char → Bool) (cs : List Char) : Option (Nat × Nat) :=
  match stripLit ci ['0', 'x'] cs with
  | none => none
  | some cs₁ =>
    let p := cs₁.span isHexCh
    match iniTryAddr ci ws p.1 p.2 3 with
    | some r => some r
    | none =>
      match iniTryAddr ci ws p.1 p.2 2 with
      | some r => some r
      | none => iniTryAddr ci ws p.1 p.2 1

/-- Result of recognizing one CLI source line. -/
inductive CLine
  | ini (addr rawVal : Nat)
  | code (opc : Opcode) (imm : Option Nat) (com : Option (List Char))
  | skip
deriving DecidableEq

/-- The CLI initializer regex
`^(INI) *(0x[0-9A-Fa-f]{1,3}) *(0x[0-9A-Fa-f]{1,3}) *(;+.*)?$`
(`mu0.py` lines 87-88).  Note: no leading-whitespace pattern — `INI` must
start at the first column. -/
def cliMatchIni (cs : List Char) : Option CLine :=
  match stripLit false ['I', 'N', 'I'] cs with
  | none => none
  | some r =>
    match matchIniOperands false cliWs (dropWs cliWs r) with
    | none => none
    | some p => some (.ini p.1 p.2)

/-- The seven operand-taking CLI mnemonics, in the order their regexes
are tried (`mu0.py` lines 74-80). -/
def cliMnemonics : List (List Char × Opcode) :=
  [(['L', 'O', 'A', 'D'], .LOAD), (['S', 'T', 'O', 'R', 'E'], .STORE),
   (['A', 'D', 'D'], .ADD), (['S', 'U', 'B'], .SUB),
   (['J', 'U', 'M', 'P'], .JUMP), (['J', 'G', 'E'], .JGE), (['J', 'N', 'E'], .JNE)]

/-- Try one CLI instruction regex
`^ *(MNEMONIC) *(0x[0-9A-Fa-f]{1,3}) *(;+ *(.*))?$` with the leading
whitespace already consumed. -/
def cliTryOp (mn : List Char) (op : Opcode) (cs : List Char) : Option CLine :=
  match stripLit false mn cs with
  | none => none
  | some r =>
    match matchOperandTail false cliWs (dropWs cliWs r) with
    | none => none
    | some q => some (.code op (some q.1) q.2)

/-- Try the CLI instruction regexes in order. -/
def firstMatch : List (List Char × Opcode) → List Char → Option CLine
  | [], _ => none
  | (mn, op) :: rest, cs =>
    match cliTryOp mn op cs with
    | some l => some l
    | none => firstMatch rest cs

/-- The CLI `STOP` regex `^ *(STOP) *()?(;+ *(.*))?$` with the leading
whitespace already consumed; the void immediate group is `none`. -/
def cliTryStop (cs : List Char) : Option CLine :=
  match stripLit false ['S', 'T', 'O', 'P'] cs with
  | none => none
  | some r =>
    match commentTail cliWs (dropWs cliWs r) with
    | none => none
    | some com => some (.code .STOP none com)

/-- CLI recognition after the initializer regex has failed: the eight
instruction regexes, then the comment-line regex `^ *;+.*$`, then the
blank-line regex `^ *$`. -/
def cliMatchRest (cs : List Char) : Option CLine :=
  match firstMatch cliMnemonics (dropWs cliWs cs) with
  | some l => some l
  | none =>
    match cliTryStop (dropWs cliWs cs) with
    | some l => some l
    | none => if tailOk cliWs cs then some .skip else none

/-- Recognize one CLI source line, in the precedence order of the parsing
loop (`mu0.py` lines 92-120): the initializer regex first, then the
instruction, comment and blank regexes. -/
def cliMatchLine (cs : List Char) : Option CLine :=
  match cliMatchIni cs with
  | some l => some l
  | none => cliMatchRest cs

/-- The CLI parsing loop (`mu0.py` lines 92-120): starting from line
counter `n`, the accumulated instruction list and memory image, consume
the remaining lines.  A recognized initializer stores the two's-complement
decoded value; a recognized instruction is appended together with its
1-based source line; an unrecognized line aborts everything with the line
number and the line's text (`quit()`). -/
def cliParseFrom : Nat → List Instr → Mem → List (List Char) →
    Except (Nat × List Char) (List Instr × Mem)
  | _, src, mem, [] => .ok (src, mem)
  | n, src, mem, l :: ls =>
    match cliMatchLine l with
    | some (.ini a v) => cliParseFrom (n + 1) src (Mem.insert mem a (decode v)) ls
    | some (.code op imm com) => cliParseFrom (n + 1) (src ++ [⟨op, imm.getD 0, com, n⟩]) mem ls
    | some .skip => cliParseFrom (n + 1) src mem ls
    | none => .error (n, l)

/-- Parse a whole CLI source (lines given without their newline
terminator, over which the regexes' `$` matches). -/
def cliParse (ls : List (List Char)) : Except (Nat × List Char) (List Instr × Mem) :=
  cliParseFrom 1 [] Mem.empty ls

/-- Result of recognizing one GUI source line.  The opcode of an
instruction is the matched text with its original letter case. -/
inductive GLine
  | ini (addr rawVal : Nat)
  | code (opc : String) (imm : Option Nat) (com : Option String)
  | skip
deriving DecidableEq

/-- The ten operand-taking GUI mnemonics, in the order of the alternation
`(LOAD|LDA|STORE|STO|ADD|SUB|JUMP|JMP|JGE|JNE)` (`mu0_graphic.py`
line 164). -/
def guiMnemonics : List (List Char) :=
  [['L', 'O', 'A', 'D'], ['L', 'D', 'A'], ['S', 'T', 'O', 'R', 'E'], ['S', 'T', 'O'],
   ['A', 'D', 'D'], ['S', 'U', 'B'], ['J', 'U', 'M', 'P'], ['J', 'M', 'P'],
   ['J', 'G', 'E'], ['J', 'N', 'E']]

/-- Try one alternative of the GUI instruction regex (case-insensitively,
`flags = re.I`), with the leading whitespace already consumed.  On
success the stored opcode is the matched input text, case preserved. -/
def guiTryOp (mn : List Char) (cs : List Char) : Option GLine :=
  match stripLit true mn cs with
  | none => none
  | some r =>
    match matchOperandTail true guiWs (dropWs guiWs r) with
    | none => none
    | some q => some (.code (String.mk (cs.take mn.length)) (some q.1) (q.2.map String.mk))

/-- Try the GUI mnemonic alternatives in order; a failing continuation
backtracks to the next alternative, as the regex engine does. -/
def firstGui : List (List Char) → List Char → Option GLine
  | [], _ => none
  | mn :: rest, cs =>
    match guiTryOp mn cs with
    | some l => some l
    | none => firstGui rest cs

/-- The GUI `STOP` regex `^[ \t]*(STOP)[ \t]*()?(?:;+[ \t]*(.*))?$`
(case-insensitive) with the leading whitespace already consumed. -/
def guiTryStop (cs : List Char) : Option GLine :=
  match stripLit true ['S', 'T', 'O', 'P'] cs with
  | none => none
  | some r =>
    match commentTail guiWs (dropWs guiWs r) with
    | none => none
    | some com => some (.code (String.mk (cs.take 4)) none (com.map String.mk))

/-- GUI recognition with the common leading `[ \t]*` already consumed:
initializer first (`parseSource` tries `self.initializer` before
`self.instructions_re`), then the instruction alternation, the `STOP`
form, the comment line and the blank line. -/
def guiMatchCore (cs : List Char) : Option GLine :=
  match (match stripLit true ['I', 'N', 'I'] cs with
         | none => none
         | some r => matchIniOperands true guiWs (dropWs guiWs r)) with
  | some p => some (.ini p.1 p.2)
  | none =>
    match firstGui guiMnemonics cs with
    | some l => some l
    | none =>
      match guiTryStop cs with
      | some l => some l
      | none =>
        match cs with
        | [] => some .skip
        | c :: _ => if c == ';' then some .skip else none

/-- Recognize one GUI line: every GUI regex starts with `^[ \t]*`, so the
leading whitespace is consumed once. -/
def guiMatchLine (cs : List Char) : Option GLine :=
  guiMatchCore (dropWs guiWs cs)

/-- Python's `str.rstrip()` whitespace class. -/
def isPyWs (c : Char) : Bool :=
  c == ' ' || c == '\t' || c == '\n' || c == '\r' || c == '\x0b' || c == '\x0c'

/-- Python's `source_line.rstrip()`: remove trailing whitespace. -/
def rstrip (cs : List Char) : List Char :=
  (cs.reverse.dropWhile isPyWs).reverse

/-- One GUI line as processed by `parseSource`: `rstrip`, then match. -/
def guiLineParse (cs : List Char) : Option GLine :=
  guiMatchLine (rstrip cs)

/-- The GUI parsing loop `Application.parseSource` (`mu0_graphic.py`
lines 206-246).  It mutates the instance fields `self.instructions` and
`self.memory` as it goes; on the first unrecognized line it raises
`SourceSyntaxError(line, source_line)` with the (rstripped) line text —
the fields keep the partial results accumulated so far.  The embedding
returns the final field contents together with the optional error. -/
def gparseFrom : Nat → List GInstr → Mem → List (List Char) →
    (List GInstr × Mem) × Option (Nat × List Char)
  | _, instrs, mem, [] => ((instrs, mem), none)
  | n, instrs, mem, l :: ls =>
    match guiMatchLine (rstrip l) with
    | some (.ini a v) => gparseFrom (n + 1) instrs (Mem.insert mem a (decode v)) ls
    | some (.code opc imm com) => gparseFrom (n + 1) (instrs ++ [⟨opc, imm, com, n⟩]) mem ls
    | some .skip => gparseFrom (n + 1) instrs mem ls
    | none => ((instrs, mem), some (n, rstrip l))

/-- Parse a whole GUI source from a fresh parser state
(`self.line = 1`, `self.instructions = []`, `self.memory = {}`). -/
def gparse (ls : List (List Char)) : (List GInstr × Mem) × Option (Nat × List Char) :=
  gparseFrom 1 [] Mem.empty ls

/-! ## Execution helper lemmas -/

theorem exec_stop (i : Instr) (s : State) (h : i.opc = .STOP) :
    exec i s = .Halted s := by
  simp [exec, h]

theorem exec_load_none (i : Instr) (s : State) (h : i.opc = .LOAD)
    (hm : s.memory i.imm = none) : exec i s = .Fault s := by
  simp [exec, h, hm]

theorem exec_load_some (i : Instr) (s : State) (v : Int) (h : i.opc = .LOAD)
    (hm : s.memory i.imm = some v) :
    exec i s = .Continued ⟨v, s.pc + 1, s.memory⟩ := by
  simp [exec, h, hm]

theorem exec_add_none (i : Instr) (s : State) (h : i.opc = .ADD)
    (hm : s.memory i.imm = none) : exec i s = .Fault s := by
  simp [exec, h, hm]

theorem exec_add_some (i : Instr) (s : State) (v : Int) (h : i.opc = .ADD)
    (hm : s.memory i.imm = some v) :
    exec i s = .Continued ⟨s.acc + v, s.pc + 1, s.memory⟩ := by
  simp [exec, h, hm]

theorem exec_sub_none (i : Instr) (s : State) (h : i.opc = .SUB)
    (hm : s.memory i.imm = none) : exec i s = .Fault s := by
  simp [exec, h, hm]

theorem exec_sub_some (i : Instr) (s : State) (v : Int) (h : i.opc = .SUB)
    (hm : s.memory i.imm = some v) :
    exec i s = .Continued ⟨s.acc - v, s.pc + 1, s.memory⟩ := by
  simp [exec, h, hm]

theorem exec_store (i : Instr) (s : State) (h : i.opc = .STORE) :
    exec i s = .Continued ⟨s.acc, s.pc + 1, Mem.insert s.memory i.imm s.acc⟩ := by
  simp [exec, h]

theorem exec_jump (i : Instr) (s : State) (h : i.opc = .JUMP) :
    exec i s = .Continued ⟨s.acc, i.imm, s.memory⟩ := by
  simp [exec, h]

theorem exec_jge_taken (i : Instr) (s : State) (h : i.opc = .JGE) (hge : s.acc ≥ 0) :
    exec i s = .Continued ⟨s.acc, i.imm, s.memory⟩ := by
  simp [exec, h, hge]

theorem exec_jge_skip (i : Instr) (s : State) (h : i.opc = .JGE) (hlt : s.acc < 0) :
    exec i s = .Continued ⟨s.acc, s.pc + 1, s.memory⟩ := by
  simp [exec, h, not_le.mpr hlt]

theorem exec_jne_taken (i : Instr) (s : State) (h : i.opc = .JNE) (hne : s.acc ≠ 0) :
    exec i s = .Continued ⟨s.acc, i.imm, s.memory⟩ := by
  simp [exec, h, hne]

theorem exec_jne_skip (i : Instr) (s : State) (h : i.opc = .JNE) (hz : s.acc = 0) :
    exec i s = .Continued ⟨s.acc, s.pc + 1, s.memory⟩ := by
  simp [exec, h, hz]

theorem step_eq_exec (prog : List Instr) (s : State) (h : s.pc < prog.length) :
    step prog s = exec (prog.get ⟨s.pc, h⟩) s :=
  dif_pos h

theorem step_past_end (prog : List Instr) (s : State) (h : ¬ s.pc < prog.length) :
    step prog s = .Completed s :=
  dif_neg h

/-- A step that continues was taken from a program position in range. -/
theorem step_continued_lt {prog : List Instr} {s s' : State}
    (hstep : step prog s = .Continued s') : s.pc < prog.length := by
  by_contra hlt
  rw [step_past_end prog s hlt] at hstep
  exact Outcome.noConfusion hstep

theorem run_succ (prog : List Instr) (fuel : Nat) (s : State) :
    run prog (fuel + 1) s =
      match step prog s with
      | .Continued s₁ => run prog fuel s₁
      | o => o := by
  rfl

/-! ## Claim C1 -/

/-- C1: a `LOAD`, `ADD` or `SUB` whose operand address is absent from
memory makes the step emit the invalid-memory-access fault (never a
silent default-zero read); the fault carries the state unchanged —
same accumulator, program counter and memory — and the driver takes no
further steps after it. -/
theorem C1_fault_on_absent_read (prog : List Instr) (s : State)
    (h : s.pc < prog.length)
    (hop : (prog.get ⟨s.pc, h⟩).opc = .LOAD ∨ (prog.get ⟨s.pc, h⟩).opc = .ADD ∨
      (prog.get ⟨s.pc, h⟩).opc = .SUB)
    (hmem : s.memory (prog.get ⟨s.pc, h⟩).imm = none) :
    step prog s = .Fault s ∧ ∀ fuel : Nat, run prog (fuel + 1) s = .Fault s := by
  have hstep : step prog s = .Fault s := by
    rw [step_eq_exec prog s h]
    rcases hop with h1 | h1 | h1
    · exact exec_load_none _ _ h1 hmem
    · exact exec_add_none _ _ h1 hmem
    · exact exec_sub_none _ _ h1 hmem
  refine ⟨hstep, fun fuel => ?_⟩
  rw [run_succ, hstep]

def c1Prog : List Instr := [⟨.LOAD, 5, none, 1⟩]

def c1State : State := initialState Mem.empty

/-- C1 witness: a `LOAD 0x5` on empty memory faults and the run stops. -/
theorem C1_witness :
    step c1Prog c1State = .Fault c1State ∧ run c1Prog 3 c1State = .Fault c1State := by
  have h := C1_fault_on_absent_read c1Prog c1State (by decide) (by decide) rfl
  exact ⟨h.1, h.2 2⟩

/-! ## Claim C2 -/

/-- A non-jump instruction that continues moves the program counter to
the successor position. -/
theorem step_pc_succ {prog : List Instr} {s s' : State}
    (hstep : step prog s = .Continued s') (h : s.pc < prog.length)
    (hnj : (prog.get ⟨s.pc, h⟩).opc ≠ .JUMP ∧ (prog.get ⟨s.pc, h⟩).opc ≠ .JGE ∧
      (prog.get ⟨s.pc, h⟩).opc ≠ .JNE) :
    s'.pc = s.pc + 1 := by
  rw [step_eq_exec prog s h] at hstep
  rcases hop : (prog.get ⟨s.pc, h⟩).opc with _ | _ | _ | _ | _ | _ | _ | _
  · cases hm : s.memory (prog.get ⟨s.pc, h⟩).imm with
    | none => rw [exec_load_none _ _ hop hm] at hstep; exact Outcome.noConfusion hstep
    | some v =>
      rw [exec_load_some _ _ v hop hm] at hstep
      injection hstep with h'
      rw [← h']
  · rw [exec_store _ _ hop] at hstep
    injection hstep with h'
    rw [← h']
  · cases hm : s.memory (prog.get ⟨s.pc, h⟩).imm with
    | none => rw [exec_add_none _ _ hop hm] at hstep; exact Outcome.noConfusion hstep
    | some v =>
      rw [exec_add_some _ _ v hop hm] at hstep
      injection hstep with h'
      rw [← h']
  · cases hm : s.memory (prog.get ⟨s.pc, h⟩).imm with
    | none => rw [exec_sub_none _ _ hop hm] at hstep; exact Outcome.noConfusion hstep
    | some v =>
      rw [exec_sub_some _ _ v hop hm] at hstep
      injection hstep with h'
      rw [← h']
  · exact absurd hop hnj.1
  · exact absurd hop hnj.2.1
  · exact absurd hop hnj.2.2
  · rw [exec_stop _ _ hop] at hstep; exact Outcome.noConfusion hstep

/-- Over a program with no jump instructions, `n` continued steps advance
the program counter by exactly `n`. -/
theorem run_nojump_pc (prog : List Instr)
    (hnj : ∀ i ∈ prog, i.opc ≠ .JUMP ∧ i.opc ≠ .JGE ∧ i.opc ≠ .JNE) :
    ∀ (n : Nat) (s s' : State), run prog n s = .Continued s' → s'.pc = s.pc + n := by
  intro n
  induction n with
  | zero =>
    intro s s' hr
    injection hr with h'
    rw [← h']
    rfl
  | succ k ih =>
    intro s s' hr
    rw [run_succ] at hr
    cases hstep : step prog s with
    | Continued s₁ =>
      rw [hstep] at hr
      have hlt := step_continued_lt hstep
      have hmem : prog.get ⟨s.pc, hlt⟩ ∈ prog := prog.get_mem _ _
      have h1 : s₁.pc = s.pc + 1 := step_pc_succ hstep hlt (hnj _ hmem)
      have h2 := ih s₁ s' hr
      omega
    | Halted s₁ => rw [hstep] at hr; exact Outcome.noConfusion hr
    | Completed s₁ => rw [hstep] at hr; exact Outcome.noConfusion hr
    | Fault s₁ => rw [hstep] at hr; exact Outcome.noConfusion hr

/-- C2: for every non-faulting, non-terminal step, `JUMP`, taken `JGE`
(accumulator ≥ 0) and taken `JNE` (accumulator ≠ 0) set the program
counter to the operand address exactly, while every other case —
including `JGE` on a negative accumulator and `JNE` on a zero
accumulator — increments it by exactly one; consequently a program with
no jump instructions has program counter `n` after `n` continued steps
from the initial position. -/
theorem C2_pc_update :
    (∀ (prog : List Instr) (s s' : State) (h : s.pc < prog.length),
      step prog s = .Continued s' →
      (((prog.get ⟨s.pc, h⟩).opc = .JUMP → s'.pc = (prog.get ⟨s.pc, h⟩).imm) ∧
       ((prog.get ⟨s.pc, h⟩).opc = .JGE → s.acc ≥ 0 → s'.pc = (prog.get ⟨s.pc, h⟩).imm) ∧
       ((prog.get ⟨s.pc, h⟩).opc = .JNE → s.acc ≠ 0 → s'.pc = (prog.get ⟨s.pc, h⟩).imm) ∧
       ((prog.get ⟨s.pc, h⟩).opc = .JGE → s.acc < 0 → s'.pc = s.pc + 1) ∧
       ((prog.get ⟨s.pc, h⟩).opc = .JNE → s.acc = 0 → s'.pc = s.pc + 1) ∧
       ((prog.get ⟨s.pc, h⟩).opc ≠ .JUMP → (prog.get ⟨s.pc, h⟩).opc ≠ .JGE →
        (prog.get ⟨s.pc, h⟩).opc ≠ .JNE → s'.pc = s.pc + 1))) ∧
    (∀ (prog : List Instr) (s s' : State) (n : Nat),
      (∀ i ∈ prog, i.opc ≠ .JUMP ∧ i.opc ≠ .JGE ∧ i.opc ≠ .JNE) →
      s.pc = 0 → run prog n s = .Continued s' → s'.pc = n) := by
  constructor
  · intro prog s s' h hstep
    rw [step_eq_exec prog s h] at hstep
    refine ⟨?_, ?_, ?_, ?_, ?_, ?_⟩
    · intro hop
      rw [exec_jump _ _ hop] at hstep
      injection hstep with h'
      rw [← h']
    · intro hop hge
      rw [exec_jge_taken _ _ hop hge] at hstep
      injection hstep with h'
      rw [← h']
    · intro hop hne
      rw [exec_jne_taken _ _ hop hne] at hstep
      injection hstep with h'
      rw [← h']
    · intro hop hlt
      rw [exec_jge_skip _ _ hop hlt] at hstep
      injection hstep with h'
      rw [← h']
    · intro hop hz
      rw [exec_jne_skip _ _ hop hz] at hstep
      injection hstep with h'
      rw [← h']
    · intro h1 h2 h3
      exact step_pc_succ (by rw [step_eq_exec prog s h]; exact hstep) h ⟨h1, h2, h3⟩
  · intro prog s s' n hnj h0 hr
    have := run_nojump_pc prog hnj n s s' hr
    omega

def c2Mem : Mem := fun _ => some 1

def c2Prog : List Instr := [⟨.ADD, 0, none, 1⟩, ⟨.ADD, 0, none, 2⟩]

def c2Jump : List Instr := [⟨.JUMP, 7, none, 1⟩]

def c2S0 : State := ⟨0, 0, c2Mem⟩

def c2SJ : State := ⟨0, 7, c2Mem⟩

def c2SEnd : State := ⟨2, 2, c2Mem⟩

/-- C2 witness: a `JUMP 0x7` lands exactly at position 7, and a two-step
jump-free program ends with program counter 2. -/
theorem C2_witness : c2SJ.pc = 7 ∧ c2SEnd.pc = 2 := by
  constructor
  · exact (C2_pc_update.1 c2Jump c2S0 c2SJ (by decide) rfl).1 rfl
  · exact C2_pc_update.2 c2Prog c2S0 c2SEnd 2 (by decide) rfl rfl

/-! ## Claim C4 -/

def stopInstr : Instr := ⟨.STOP, 0, none, 1⟩

/-- C4: a state whose program counter addresses a `STOP` steps to
`Halted` with the state unchanged (so the program counter does not
advance); the one-instruction program `STOP` halts from the initial
position after exactly one step no matter how much fuel the driver has;
and `Halted` is always a different outcome from `Completed`. -/
theorem C4_stop_halts :
    (∀ (prog : List Instr) (s : State) (h : s.pc < prog.length),
      (prog.get ⟨s.pc, h⟩).opc = .STOP → step prog s = .Halted s) ∧
    (∀ (m : Mem) (fuel : Nat),
      run [stopInstr] (fuel + 1) (initialState m) = .Halted (initialState m)) ∧
    (∀ s₁ s₂ : State, (Outcome.Halted s₁ : Outcome) ≠ .Completed s₂) := by
  refine ⟨?_, ?_, ?_⟩
  · intro prog s h hop
    rw [step_eq_exec prog s h]
    exact exec_stop _ _ hop
  · intro m fuel
    have h : step [stopInstr] (initialState m) = .Halted (initialState m) := by
      rw [step_eq_exec [stopInstr] (initialState m) Nat.zero_lt_one]
      exact exec_stop _ _ rfl
    rw [run_succ, h]
  · intro s₁ s₂ hcontra
    exact Outcome.noConfusion hcontra

/-- C4 witness: the single-`STOP` program halts in one step on empty
memory, from the initial state. -/
theorem C4_witness :
    step [stopInstr] (initialState Mem.empty) = .Halted (initialState Mem.empty) ∧
    run [stopInstr] 1 (initialState Mem.empty) = .Halted (initialState Mem.empty) := by
  refine ⟨C4_stop_halts.1 [stopInstr] (initialState Mem.empty) (by decide) rfl, ?_⟩
  exact C4_stop_halts.2.1 Mem.empty 0

/-! ## Claim C5 -/

/-- C5: every state whose program counter is at or past the end of the
instruction sequence — in particular one reached by a jump past the
end — steps to the `Completed` end-of-program outcome, and an empty
instruction sequence completes on the very first step from the initial
state. -/
theorem C5_completed_past_end :
    (∀ (prog : List Instr) (s : State), prog.length ≤ s.pc →
      step prog s = .Completed s) ∧
    (∀ m : Mem, step ([] : List Instr) (initialState m) = .Completed (initialState m)) := by
  constructor
  · intro prog s hle
    exact step_past_end prog s (not_lt.mpr hle)
  · intro m
    exact step_past_end [] (initialState m) (by simp)

def c5Prog : List Instr := [⟨.STOP, 0, none, 1⟩]

def c5S : State := ⟨0, 5, Mem.empty⟩

/-- C5 witness: with one instruction and program counter 5 (as after a
`JUMP 0x5`), the step completes; the empty program completes at once. -/
theorem C5_witness :
    step c5Prog c5S = .Completed c5S ∧
    step ([] : List Instr) (initialState Mem.empty) = .Completed (initialState Mem.empty) :=
  ⟨C5_completed_past_end.1 c5Prog c5S (by decide), C5_completed_past_end.2 Mem.empty⟩

/-! ## Claim C9 -/

/-- C9: accumulator arithmetic is exact integer arithmetic.  A
non-faulting `ADD` (resp. `SUB`) step makes the new accumulator the exact
sum (resp. difference) of the old accumulator and the memory value — an
equation over unbounded `Int`, with no reduction modulo `2^12` — even
when the result leaves `[-2048, 2047]`. -/
theorem C9_exact_arithmetic (prog : List Instr) (s s' : State)
    (h : s.pc < prog.length) (v : Int)
    (hm : s.memory (prog.get ⟨s.pc, h⟩).imm = some v)
    (hstep : step prog s = .Continued s') :
    ((prog.get ⟨s.pc, h⟩).opc = .ADD → s'.acc = s.acc + v) ∧
    ((prog.get ⟨s.pc, h⟩).opc = .SUB → s'.acc = s.acc - v) := by
  rw [step_eq_exec prog s h] at hstep
  constructor
  · intro hop
    rw [exec_add_some _ _ v hop hm] at hstep
    injection hstep with h'
    rw [← h']
  · intro hop
    rw [exec_sub_some _ _ v hop hm] at hstep
    injection hstep with h'
    rw [← h']

def c9Mem : Mem := fun _ => some 1

def c9Prog : List Instr := [⟨.ADD, 0, none, 1⟩]

def c9S : State := ⟨2047, 0, c9Mem⟩

def c9S2 : State := ⟨2048, 1, c9Mem⟩

/-- C9 witness: adding 1 to an accumulator already at the top of the
12-bit range gives exactly 2048 — past the representable range, no
wraparound. -/
theorem C9_witness : c9S2.acc = 2047 + 1 :=
  (C9_exact_arithmetic c9Prog c9S c9S2 (by decide) 1 rfl rfl).1 rfl

/-! ## Claim C10 -/

/-- C10: per-opcode frame property of a non-faulting, non-terminal step.
`LOAD`/`ADD`/`SUB` leave memory unchanged at every address and move the
program counter to the successor; `STORE` keeps the accumulator, moves
the program counter to the successor, writes the old accumulator at the
operand address and leaves every other address unchanged; the jumps keep
the accumulator and leave memory unchanged at every address. -/
theorem C10_frame (prog : List Instr) (s s' : State) (h : s.pc < prog.length)
    (hstep : step prog s = .Continued s') :
    (((prog.get ⟨s.pc, h⟩).opc = .LOAD ∨ (prog.get ⟨s.pc, h⟩).opc = .ADD ∨
      (prog.get ⟨s.pc, h⟩).opc = .SUB) →
      (∀ a : Nat, s'.memory a = s.memory a) ∧ s'.pc = s.pc + 1) ∧
    ((prog.get ⟨s.pc, h⟩).opc = .STORE →
      s'.acc = s.acc ∧ s'.pc = s.pc + 1 ∧
      s'.memory (prog.get ⟨s.pc, h⟩).imm = some s.acc ∧
      ∀ a : Nat, a ≠ (prog.get ⟨s.pc, h⟩).imm → s'.memory a = s.memory a) ∧
    (((prog.get ⟨s.pc, h⟩).opc = .JUMP ∨ (prog.get ⟨s.pc, h⟩).opc = .JGE ∨
      (prog.get ⟨s.pc, h⟩).opc = .JNE) →
      s'.acc = s.acc ∧ ∀ a : Nat, s'.memory a = s.memory a) := by
  rw [step_eq_exec prog s h] at hstep
  refine ⟨?_, ?_, ?_⟩
  · rintro (hop | hop | hop) <;>
    · cases hm : s.memory (prog.get ⟨s.pc, h⟩).imm with
      | none =>
        first
        | rw [exec_load_none _ _ hop hm] at hstep
        | rw [exec_add_none _ _ hop hm] at hstep
        | rw [exec_sub_none _ _ hop hm] at hstep
        exact Outcome.noConfusion hstep
      | some v =>
        first
        | rw [exec_load_some _ _ v hop hm] at hstep
        | rw [exec_add_some _ _ v hop hm] at hstep
        | rw [exec_sub_some _ _ v hop hm] at hstep
        injection hstep with h'
        rw [← h']
        exact ⟨fun a => rfl, rfl⟩
  · intro hop
    rw [exec_store _ _ hop] at hstep
    injection hstep with h'
    rw [← h']
    refine ⟨rfl, rfl, ?_, ?_⟩
    · exact if_pos rfl
    · intro a ha
      exact if_neg ha
  · intro hop
    have hres : ∃ p : Nat, exec (prog.get ⟨s.pc, h⟩) s = .Continued ⟨s.acc, p, s.memory⟩ := by
      rcases hop with hop | hop | hop
      · exact ⟨(prog.get ⟨s.pc, h⟩).imm, exec_jump _ _ hop⟩
      · rcases le_or_lt 0 s.acc with hge | hlt
        · exact ⟨(prog.get ⟨s.pc, h⟩).imm, exec_jge_taken _ _ hop hge⟩
        · exact ⟨s.pc + 1, exec_jge_skip _ _ hop hlt⟩
      · rcases eq_or_ne s.acc 0 with hz | hne
        · exact ⟨s.pc + 1, exec_jne_skip _ _ hop hz⟩
        · exact ⟨(prog.get ⟨s.pc, h⟩).imm, exec_jne_taken _ _ hop hne⟩
    obtain ⟨p, hp⟩ := hres
    rw [hp] at hstep
    injection hstep with h'
    rw [← h']
    exact ⟨rfl, fun a => rfl⟩

def c10Prog : List Instr := [⟨.STORE, 3, none, 1⟩]

def c10S : State := ⟨42, 0, Mem.empty⟩

def c10S2 : State := ⟨42, 1, Mem.insert Mem.empty 3 42⟩

/-- C10 witness: a `STORE 0x3` with accumulator 42 writes address 3,
leaves address 9 untouched, keeps the accumulator and increments the
program counter. -/
theorem C10_witness :
    c10S2.acc = 42 ∧ c10S2.pc = 1 ∧ c10S2.memory 3 = some 42 ∧
    c10S2.memory 9 = Mem.empty 9 := by
  have h := (C10_frame c10Prog c10S c10S2 (by decide) rfl).2.1 rfl
  exact ⟨h.1, h.2.1, h.2.2.1, h.2.2.2 9 (by decide)⟩

/-! ## Claim C3 -/

/-- C3: the two's-complement helpers are exact inverses over the
representable range: decoding after encoding is the identity on signed
values in `[-2048, 2047]`, and encoding after decoding is the identity on
raw values in `[0, 4095]`. -/
theorem C3_twos_complement_inverse :
    (∀ s : Int, -2048 ≤ s → s ≤ 2047 → decode (encode s) = s) ∧
    (∀ r : Int, 0 ≤ r → r ≤ 4095 → encode (decode r) = r) := by
  constructor
  · intro s h1 h2
    simp only [decode, encode]
    split <;> (try split) <;> omega
  · intro r h1 h2
    simp only [decode, encode]
    split <;> (try split) <;> omega

/-- C3 witness: round trips at a negative signed value and at a raw
value in the negative half of the range. -/
theorem C3_witness : decode (encode (-3)) = -3 ∧ encode (decode 4093) = 4093 :=
  ⟨C3_twos_complement_inverse.1 (-3) (by decide) (by decide),
   C3_twos_complement_inverse.2 4093 (by decide) (by decide)⟩

/-! ## Claim C6 -/

def c6Mem : Mem := fun a => if a = 16 then some 5 else none

/-- C6 is refuted by the GUI code.  The case-insensitive regexes accept
`load 0x10` and store the opcode text `"load"` verbatim, but
`runInstruction` dispatches with case-sensitive string comparisons, so
the lowercase instruction executes as a no-op (accumulator and memory
untouched, program counter incremented) instead of loading; and the
alias `"JMP"` is missing from the final non-jump increment check, so
`JMP 0x0` leaves the program counter at 1 (target plus one) where
`JUMP 0x0` leaves it at 0.  Each conjunct evaluates the embedded GUI
code at those inputs. -/
theorem C6_case_alias_divergence :
    guiLineParse "load 0x10".toList = some (.code "load" (some 16) none) ∧
    gstep [⟨"load", some 16, none, 1⟩] ⟨0, 0, c6Mem⟩ = .Continued ⟨0, 1, c6Mem⟩ ∧
    gstep [⟨"LOAD", some 16, none, 1⟩] ⟨0, 0, c6Mem⟩ = .Continued ⟨5, 1, c6Mem⟩ ∧
    gstep [⟨"JMP", some 0, none, 1⟩] ⟨0, 0, c6Mem⟩ = .Continued ⟨0, 1, c6Mem⟩ ∧
    gstep [⟨"JUMP", some 0, none, 1⟩] ⟨0, 0, c6Mem⟩ = .Continued ⟨0, 0, c6Mem⟩ :=
  ⟨rfl, rfl, rfl, rfl, rfl⟩

/-! ## Character-class and whitespace helper lemmas -/

theorem cliWs_eq {a : Char} (h : cliWs a = true) : a = ' ' := by
  simpa [cliWs] using h

theorem guiWs_eq {a : Char} (h : guiWs a = true) : a = ' ' ∨ a = '\t' := by
  simpa [guiWs] using h

theorem guiWs_pyws {a : Char} (h : guiWs a = true) : isPyWs a = true := by
  rcases guiWs_eq h with rfl | rfl <;> rfl

theorem cliWs_guiWs {a : Char} (h : cliWs a = true) : guiWs a = true := by
  rw [cliWs_eq h]; rfl

theorem guiWs_not_hex {a : Char} (h : guiWs a = true) : isHexCh a = false := by
  rcases guiWs_eq h with rfl | rfl <;> rfl

theorem cliWs_not_hex {a : Char} (h : cliWs a = true) : isHexCh a = false := by
  rw [cliWs_eq h]; rfl

theorem guiWs_not_semi {a : Char} (h : guiWs a = true) : (a == ';') = false := by
  rcases guiWs_eq h with rfl | rfl <;> rfl

theorem pyws_not_hex {a : Char} (h : isPyWs a = true) : isHexCh a = false := by
  simp [isPyWs] at h
  rcases h with ((((rfl | rfl) | rfl) | rfl) | rfl) | rfl <;> rfl

theorem hex_not_pyws {a : Char} (h : isHexCh a = true) : isPyWs a = false := by
  cases hp : isPyWs a with
  | false => rfl
  | true => rw [pyws_not_hex hp] at h; exact Bool.noConfusion h

theorem dropWs_cons_false {ws : Char → Bool} {c : Char} (h : ws c = false)
    (t : List Char) : dropWs ws (c :: t) = c :: t := by
  simp [dropWs, h]

theorem dropWs_sat {ws : Char → Bool} {w : List Char} (hw : ∀ a ∈ w, ws a = true)
    (t : List Char) : dropWs ws (w ++ t) = dropWs ws t := by
  induction w with
  | nil => rfl
  | cons a w' ih =>
    rw [List.cons_append]
    simp only [dropWs, hw a (List.mem_cons_self a w'), if_true]
    exact ih (fun x hx => hw x (List.mem_cons_of_mem a hx))

theorem dropWs_sat_cons {ws : Char → Bool} {w : List Char}
    (hw : ∀ a ∈ w, ws a = true) {c : Char} (hc : ws c = false) (t : List Char) :
    dropWs ws (w ++ c :: t) = c :: t := by
  rw [dropWs_sat hw, dropWs_cons_false hc]

theorem dropWs_sat_nil {ws : Char → Bool} {w : List Char}
    (hw : ∀ a ∈ w, ws a = true) : dropWs ws w = [] := by
  have h := dropWs_sat hw []
  rwa [List.append_nil] at h

theorem dropWhile_sat_append (p : Char → Bool) (l₁ l₂ : List Char)
    (h : ∀ a ∈ l₁, p a = true) :
    List.dropWhile p (l₁ ++ l₂) = List.dropWhile p l₂ := by
  induction l₁ with
  | nil => rfl
  | cons a as ih =>
    rw [List.cons_append, List.dropWhile_cons, h a (List.mem_cons_self a as)]
    exact ih (fun b hb => h b (List.mem_cons_of_mem a hb))

theorem dropWhile_sat_nil (p : Char → Bool) {l : List Char}
    (h : ∀ a ∈ l, p a = true) : List.dropWhile p l = [] := by
  have h2 := dropWhile_sat_append p l [] h
  rwa [List.append_nil] at h2

theorem dropWhile_append_cases (p : Char → Bool) (l₁ l₂ : List Char) :
    List.dropWhile p (l₁ ++ l₂) =
      if (List.dropWhile p l₁).isEmpty then List.dropWhile p l₂
      else List.dropWhile p l₁ ++ l₂ := by
  induction l₁ with
  | nil => simp
  | cons a as ih =>
    rw [List.cons_append, List.dropWhile_cons, List.dropWhile_cons]
    cases hpa : p a
    · simp
    · simpa using ih

theorem dropWhile_length_le (p : Char → Bool) :
    ∀ l : List Char, (List.dropWhile p l).length ≤ l.length := by
  intro l
  induction l with
  | nil => exact Nat.le_refl 0
  | cons a as ih =>
    rw [List.dropWhile_cons]
    cases hpa : p a
    · simp
    · simpa using Nat.le_succ_of_le ih

theorem dropWhile_cons_eq_self {p : Char → Bool} {b : Char} {B : List Char}
    (h : List.dropWhile p (b :: B) = b :: B) : p b = false := by
  cases hpb : p b with
  | false => rfl
  | true =>
    rw [List.dropWhile_cons, hpb, if_pos rfl] at h
    have hl := dropWhile_length_le p B
    rw [h] at hl
    simp at hl

/-! ## rstrip lemmas -/

theorem rstrip_sat_append {w : List Char} (hw : ∀ a ∈ w, isPyWs a = true)
    (cs : List Char) : rstrip (cs ++ w) = rstrip cs := by
  unfold rstrip
  rw [List.reverse_append,
    dropWhile_sat_append isPyWs w.reverse cs.reverse
      (fun a ha => hw a (List.mem_reverse.mp ha))]

theorem rstrip_ws_lead {w : List Char} (hw : ∀ a ∈ w, guiWs a = true)
    (cs : List Char) :
    dropWs guiWs (rstrip (w ++ cs)) = dropWs guiWs (rstrip cs) := by
  unfold rstrip
  rw [List.reverse_append, dropWhile_append_cases]
  cases hd : (List.dropWhile isPyWs cs.reverse).isEmpty
  · simp only [hd, Bool.false_eq_true, if_false, List.reverse_append,
      List.reverse_reverse]
    exact dropWs_sat hw _
  · simp only [hd, if_true]
    rw [dropWhile_sat_nil isPyWs
      (fun a ha => guiWs_pyws (hw a (List.mem_reverse.mp ha)))]
    rw [List.isEmpty_iff] at hd
    rw [hd]

theorem rstrip_fix_append {Y : List Char} (hY : rstrip Y = Y) (hne : Y ≠ [])
    (X : List Char) : rstrip (X ++ Y) = X ++ Y := by
  have hdw : List.dropWhile isPyWs Y.reverse = Y.reverse := by
    have h2 := congrArg List.reverse hY
    rwa [rstrip, List.reverse_reverse] at h2
  obtain ⟨b, B, hYrev⟩ : ∃ b B, Y.reverse = b :: B := by
    cases hYr : Y.reverse with
    | nil =>
      have h3 := congrArg List.reverse hYr
      rw [List.reverse_reverse] at h3
      exact absurd h3 hne
    | cons b B => exact ⟨b, B, rfl⟩
  have hb : isPyWs b = false := by
    apply dropWhile_cons_eq_self (p := isPyWs) (B := B)
    rw [← hYrev]
    exact hdw
  unfold rstrip
  rw [List.reverse_append, hYrev, List.cons_append, List.dropWhile_cons, hb]
  simp only [Bool.false_eq_true, if_false]
  rw [← List.cons_append, ← hYrev, ← List.reverse_append, List.reverse_reverse]

theorem rstrip_single {d : Char} (hd : isPyWs d = false) : rstrip [d] = [d] := by
  unfold rstrip
  simp [List.dropWhile_cons, hd]

theorem guiLineParse_ws_lead {w : List Char} (hw : ∀ a ∈ w, guiWs a = true)
    (cs : List Char) : guiLineParse (w ++ cs) = guiLineParse cs := by
  unfold guiLineParse guiMatchLine
  rw [rstrip_ws_lead hw]

theorem guiLineParse_ws_suffix {w : List Char} (hw : ∀ a ∈ w, isPyWs a = true)
    (cs : List Char) : guiLineParse (cs ++ w) = guiLineParse cs := by
  unfold guiLineParse
  rw [rstrip_sat_append hw]

theorem cliMatchLine_eq_rest (cs : List Char) (h : cliMatchIni cs = none) :
    cliMatchLine cs = cliMatchRest cs := by
  unfold cliMatchLine
  rw [h]

theorem cliMatchRest_cons_space (t : List Char) :
    cliMatchRest (' ' :: t) = cliMatchRest t := by
  have hd : dropWs cliWs (' ' :: t) = dropWs cliWs t := by
    simp [dropWs, cliWs]
  have ht : tailOk cliWs (' ' :: t) = tailOk cliWs t := by
    unfold tailOk
    rw [hd]
  unfold cliMatchRest
  rw [hd, ht]

theorem cliMatchRest_sat {w : List Char} (hw : ∀ a ∈ w, cliWs a = true)
    (t : List Char) : cliMatchRest (w ++ t) = cliMatchRest t := by
  induction w with
  | nil => rfl
  | cons a w' ih =>
    have ha := cliWs_eq (hw a (List.mem_cons_self a w'))
    subst ha
    rw [List.cons_append, cliMatchRest_cons_space]
    exact ih (fun x hx => hw x (List.mem_cons_of_mem ' ' hx))

theorem cliMatchIni_space (t : List Char) : cliMatchIni (' ' :: t) = none := rfl

/-- The initializer regex only produces initializer results. -/
theorem cliMatchIni_shape (cs : List Char) (c : CLine) (h : cliMatchIni cs = some c) :
    ∃ a v, c = .ini a v := by
  unfold cliMatchIni at h
  cases h1 : stripLit false ['I', 'N', 'I'] cs with
  | none => simp only [h1] at h; exact Option.noConfusion h
  | some r =>
    simp only [h1] at h
    cases h2 : matchIniOperands false cliWs (dropWs cliWs r) with
    | none => simp only [h2] at h; exact Option.noConfusion h
    | some p =>
      simp only [h2, Option.some.injEq] at h
      exact ⟨p.1, p.2, h.symm⟩

/-- The CLI parsing loop fails at the first unrecognized line, reporting
its 1-based position (`n` plus the number of consumed lines) and its raw
text, whatever instructions or memory were accumulated before. -/
theorem cliParseFrom_error (bad : List Char) (post : List (List Char))
    (hbad : cliMatchLine bad = none) :
    ∀ (pre : List (List Char)) (n : Nat) (src : List Instr) (mem : Mem),
      (∀ l ∈ pre, (cliMatchLine l).isSome) →
      cliParseFrom n src mem (pre ++ bad :: post) = .error (n + pre.length, bad) := by
  intro pre
  induction pre with
  | nil =>
    intro n src mem _
    rw [List.nil_append]
    unfold cliParseFrom
    simp [hbad]
  | cons l ls ih =>
    intro n src mem hall
    have hl := hall l (List.mem_cons_self l ls)
    have hall' : ∀ x ∈ ls, (cliMatchLine x).isSome :=
      fun x hx => hall x (List.mem_cons_of_mem l hx)
    have harith : n + 1 + ls.length = n + (l :: ls).length := by
      rw [List.length_cons]; omega
    rw [List.cons_append]
    unfold cliParseFrom
    split
    · rw [ih (n + 1) src _ hall', harith]
    · rw [ih (n + 1) _ mem hall', harith]
    · rw [ih (n + 1) src mem hall', harith]
    · rename_i heq
      rw [heq] at hl
      exact absurd hl (by simp)

/-- The GUI parsing loop records the first unrecognized line, reporting
its 1-based position and its rstripped text. -/
theorem gparseFrom_error (bad : List Char) (post : List (List Char))
    (hbad : guiLineParse bad = none) :
    ∀ (pre : List (List Char)) (n : Nat) (instrs : List GInstr) (mem : Mem),
      (∀ l ∈ pre, (guiLineParse l).isSome) →
      (gparseFrom n instrs mem (pre ++ bad :: post)).2 = some (n + pre.length, rstrip bad) := by
  intro pre
  induction pre with
  | nil =>
    intro n instrs mem _
    rw [List.nil_append]
    unfold gparseFrom
    unfold guiLineParse at hbad
    simp [hbad]
  | cons l ls ih =>
    intro n instrs mem hall
    have hl := hall l (List.mem_cons_self l ls)
    have hall' : ∀ x ∈ ls, (guiLineParse x).isSome :=
      fun x hx => hall x (List.mem_cons_of_mem l hx)
    have harith : n + 1 + ls.length = n + (l :: ls).length := by
      rw [List.length_cons]; omega
    rw [List.cons_append]
    unfold gparseFrom
    unfold guiLineParse at hl
    split
    · rw [ih (n + 1) instrs _ hall', harith]
    · rw [ih (n + 1) _ mem hall', harith]
    · rw [ih (n + 1) instrs mem hall', harith]
    · rename_i heq
      rw [heq] at hl
      exact absurd hl (by simp)

/-! ## Claim C7 -/

/-- C7 counterexample: the claim asserts that after a syntax error no
instruction sequence produced from earlier lines is retained.  In the
GUI, `parseSource` mutates `self.instructions` before raising
`SourceSyntaxError`: on the source `LOAD 0x1` / `XYZ 0x1` the error names
line 2 with its text, yet the parser state still holds the instruction
parsed from line 1. -/
theorem C7_counterexample :
    (gparse ["LOAD 0x1".toList, "XYZ 0x1".toList]).2 = some (2, "XYZ 0x1".toList) ∧
    (gparse ["LOAD 0x1".toList, "XYZ 0x1".toList]).1.1 = [⟨"LOAD", some 1, none, 1⟩] :=
  ⟨rfl, rfl⟩

/-- C7 (amended): on any input whose first unrecognized line follows only
recognized lines, parsing stops at that line; the error carries its
1-based number and its text (rstripped by the GUI before matching); the
CLI returns only the error and no program, and the GUI records the same
error position. -/
theorem C7_failfast :
    (∀ (pre : List (List Char)) (bad : List Char) (post : List (List Char)),
      (∀ l ∈ pre, (cliMatchLine l).isSome) → cliMatchLine bad = none →
      cliParse (pre ++ bad :: post) = .error (pre.length + 1, bad)) ∧
    (∀ (pre : List (List Char)) (bad : List Char) (post : List (List Char)),
      (∀ l ∈ pre, (guiLineParse l).isSome) → guiLineParse bad = none →
      (gparse (pre ++ bad :: post)).2 = some (pre.length + 1, rstrip bad)) := by
  constructor
  · intro pre bad post hall hbad
    unfold cliParse
    rw [cliParseFrom_error bad post hbad pre 1 [] Mem.empty hall]
    rw [Nat.add_comm]
  · intro pre bad post hall hbad
    unfold gparse
    rw [gparseFrom_error bad post hbad pre 1 [] Mem.empty hall]
    rw [Nat.add_comm]

/-- C7 witness: one good line, then the malformed `XYZ 0x1` of the spec's
test properties; both parsers report line 2 with the line's text. -/
theorem C7_witness :
    cliParse ["LOAD 0x1".toList, "XYZ 0x1".toList] = .error (2, "XYZ 0x1".toList) ∧
    (gparse ["LOAD 0x2".toList, "XYZ 0x1".toList]).2 = some (2, "XYZ 0x1".toList) := by
  constructor
  · exact C7_failfast.1 ["LOAD 0x1".toList] "XYZ 0x1".toList [] (by decide) (by decide)
  · exact C7_failfast.2 ["LOAD 0x2".toList] "XYZ 0x1".toList [] (by decide) (by decide)

/-! ## Recognizer computation lemmas

These compute the recognizers on lines built from explicit whitespace
gaps, which is how the whitespace-permissiveness claims are settled. -/

theorem chEq_refl (ci : Bool) (a : Char) : chEq ci a a = true := by
  cases ci <;> simp [chEq]

theorem stripLit_self (ci : Bool) (p t : List Char) :
    stripLit ci p (p ++ t) = some t := by
  induction p with
  | nil => rfl
  | cons a as ih =>
    rw [List.cons_append]
    simp only [stripLit, chEq_refl, if_true]
    exact ih

theorem strip0x_self (ci : Bool) (t : List Char) :
    stripLit ci ['0', 'x'] ('0' :: 'x' :: t) = some t := by
  cases ci <;> rfl

theorem takeWhile_sat_append (p : Char → Bool) {ds : List Char}
    (hds : ∀ a ∈ ds, p a = true) (t : List Char) :
    List.takeWhile p (ds ++ t) = ds ++ List.takeWhile p t := by
  induction ds with
  | nil => rfl
  | cons a as ih =>
    rw [List.cons_append, List.takeWhile_cons, hds a (List.mem_cons_self a as),
      if_pos rfl, ih (fun x hx => hds x (List.mem_cons_of_mem a hx)),
      List.cons_append]

theorem span_boundary (p : Char → Bool) {ds t : List Char}
    (hds : ∀ a ∈ ds, p a = true)
    (hb : t = [] ∨ ∃ c t', t = c :: t' ∧ p c = false) :
    (ds ++ t).span p = (ds, t) := by
  rw [List.span_eq_take_drop]
  rcases hb with rfl | ⟨c, t', rfl, hc⟩
  · rw [takeWhile_sat_append p hds [], dropWhile_sat_append p ds [] hds]
    simp
  · rw [takeWhile_sat_append p hds, dropWhile_sat_append p ds _ hds,
      List.takeWhile_cons, hc, List.dropWhile_cons, hc]
    simp

/-- A whitespace run followed by a known non-hex character is a valid
boundary for a maximal hex-digit group. -/
theorem boundary_sat {ws : Char → Bool} (hwx : ∀ a, ws a = true → isHexCh a = false)
    {w : List Char} (hw : ∀ a ∈ w, ws a = true) {c₀ : Char}
    (hc₀ : isHexCh c₀ = false) (t'' : List Char) :
    w ++ c₀ :: t'' = [] ∨
      ∃ c t', w ++ c₀ :: t'' = c :: t' ∧ isHexCh c = false := by
  cases w with
  | nil => exact Or.inr ⟨c₀, t'', rfl, hc₀⟩
  | cons a w' =>
    exact Or.inr ⟨a, w' ++ c₀ :: t'', rfl, hwx a (hw a (List.mem_cons_self a w'))⟩

/-- A pure whitespace run is a valid boundary. -/
theorem boundary_ws {ws : Char → Bool} (hwx : ∀ a, ws a = true → isHexCh a = false)
    {w : List Char} (hw : ∀ a ∈ w, ws a = true) :
    w = [] ∨ ∃ c t', w = c :: t' ∧ isHexCh c = false := by
  cases w with
  | nil => exact Or.inl rfl
  | cons a w' =>
    exact Or.inr ⟨a, w', rfl, hwx a (hw a (List.mem_cons_self a w'))⟩

/-- An accepted line tail begins with whitespace, a semicolon, or nothing
— never a hex digit. -/
theorem tailOk_boundary {ws : Char → Bool}
    (hwx : ∀ a, ws a = true → isHexCh a = false) {t : List Char}
    (ht : tailOk ws t = true) :
    t = [] ∨ ∃ c t', t = c :: t' ∧ isHexCh c = false := by
  cases t with
  | nil => exact Or.inl rfl
  | cons c t' =>
    refine Or.inr ⟨c, t', rfl, ?_⟩
    cases hc : ws c with
    | true => exact hwx c hc
    | false =>
      unfold tailOk at ht
      rw [dropWs_cons_false hc] at ht
      have hcs : c = ';' := by
        have h2 : (c == ';') = true := ht
        exact eq_of_beq h2
      rw [hcs]
      rfl

/-- A whitespace-only rest of line yields an empty comment group. -/
theorem commentTail_ws_nil {ws : Char → Bool} {w : List Char}
    (hw : ∀ a ∈ w, ws a = true) :
    commentTail ws (dropWs ws w) = some none := by
  rw [dropWs_sat_nil hw]
  rfl

/-- A `;`-introduced comment group captures the text after the semicolon
run and the whitespace that follows it. -/
theorem commentTail_comment {ws : Char → Bool}
    (hsemi : ∀ a, ws a = true → (a == ';') = false) (hws : ws ';' = false)
    {w₂ w₃ : List Char} (hw₂ : ∀ a ∈ w₂, ws a = true)
    (hw₃ : ∀ a ∈ w₃, ws a = true) {c : Char} (hc : ws c = false)
    (hcs : (c == ';') = false) (tc : List Char) :
    commentTail ws (dropWs ws (w₂ ++ ';' :: (w₃ ++ c :: tc))) =
      some (some (c :: tc)) := by
  rw [dropWs_sat_cons hw₂ hws]
  have hdrop : (w₃ ++ c :: tc).dropWhile (fun d => d == ';') = w₃ ++ c :: tc := by
    cases w₃ with
    | nil =>
      rw [List.nil_append, List.dropWhile_cons, hcs]
      simp
    | cons a w' =>
      rw [List.cons_append, List.dropWhile_cons,
        hsemi a (hw₃ a (List.mem_cons_self a w'))]
      simp
  simp only [commentTail, hdrop]
  rw [dropWs_sat_cons hw₃ hc]
  exact if_pos rfl

/-- Compute `matchOperandTail` on an explicit operand and tail. -/
theorem matchOperandTail_eq (ci : Bool) {ws : Char → Bool} {ds t : List Char}
    {com : Option (List Char)} (hds : ∀ a ∈ ds, isHexCh a = true)
    (h1 : 1 ≤ ds.length) (h3 : ds.length ≤ 3)
    (hb : t = [] ∨ ∃ c t', t = c :: t' ∧ isHexCh c = false)
    (hct : commentTail ws (dropWs ws t) = some com) :
    matchOperandTail ci ws ('0' :: 'x' :: (ds ++ t)) = some (hexToNat ds, com) := by
  simp only [matchOperandTail, strip0x_self]
  rw [span_boundary isHexCh hds hb]
  show (if 1 ≤ ds.length ∧ ds.length ≤ 3 then _ else none) = _
  rw [if_pos ⟨h1, h3⟩, hct]

/-- Compute `matchValueTail` on an explicit operand and accepted tail. -/
theorem matchValueTail_eq (ci : Bool) {ws : Char → Bool} {ds t : List Char}
    (hds : ∀ a ∈ ds, isHexCh a = true) (h1 : 1 ≤ ds.length) (h3 : ds.length ≤ 3)
    (hb : t = [] ∨ ∃ c t', t = c :: t' ∧ isHexCh c = false)
    (ht : tailOk ws t = true) :
    matchValueTail ci ws ('0' :: 'x' :: (ds ++ t)) = some (hexToNat ds) := by
  simp only [matchValueTail, strip0x_self]
  rw [span_boundary isHexCh hds hb]
  show (if 1 ≤ ds.length ∧ ds.length ≤ 3 ∧ tailOk ws t = true then _ else none) = _
  rw [if_pos ⟨h1, h3, ht⟩]

theorem iniTryAddr_none (ci : Bool) {ws : Char → Bool} {ds rest : List Char}
    {k : Nat} (hk : ¬ k ≤ ds.length) : iniTryAddr ci ws ds rest k = none := by
  unfold iniTryAddr
  rw [if_neg hk]

theorem iniTryAddr_full (ci : Bool) {ws : Char → Bool} {ds rest : List Char}
    {k : Nat} (hk : k = ds.length) {v : Nat}
    (hv : matchValueTail ci ws (dropWs ws rest) = some v) :
    iniTryAddr ci ws ds rest k = some (hexToNat ds, v) := by
  subst hk
  unfold iniTryAddr
  rw [if_pos (Nat.le_refl _), List.drop_length, List.nil_append, hv,
    List.take_length]

/-- Compute `matchIniOperands` on two explicit operands separated by a
nonempty whitespace gap, with any accepted line tail. -/
theorem matchIniOperands_eq (ci : Bool) {ws : Char → Bool}
    (hwx : ∀ a, ws a = true → isHexCh a = false) (hw0 : ws '0' = false)
    {ds₁ : List Char} (hds₁ : ∀ a ∈ ds₁, isHexCh a = true)
    (h11 : 1 ≤ ds₁.length) (h13 : ds₁.length ≤ 3)
    {c₂ : Char} (hc₂ : ws c₂ = true) {w₂ : List Char}
    (hw₂ : ∀ a ∈ w₂, ws a = true)
    {ds₂ : List Char} (hds₂ : ∀ a ∈ ds₂, isHexCh a = true)
    (h21 : 1 ≤ ds₂.length) (h23 : ds₂.length ≤ 3)
    {t : List Char} (ht : tailOk ws t = true) :
    matchIniOperands ci ws
      ('0' :: 'x' :: (ds₁ ++ (c₂ :: (w₂ ++ ('0' :: 'x' :: (ds₂ ++ t)))))) =
      some (hexToNat ds₁, hexToNat ds₂) := by
  have hv : matchValueTail ci ws
      (dropWs ws (c₂ :: (w₂ ++ ('0' :: 'x' :: (ds₂ ++ t))))) =
      some (hexToNat ds₂) := by
    rw [← List.cons_append,
      dropWs_sat_cons (fun a ha => by
        rcases List.mem_cons.mp ha with rfl | ha'
        · exact hc₂
        · exact hw₂ a ha') hw0]
    exact matchValueTail_eq ci hds₂ h21 h23 (tailOk_boundary hwx ht) ht
  simp only [matchIniOperands, strip0x_self,
    span_boundary isHexCh hds₁ (Or.inr ⟨c₂, _, rfl, hwx c₂ hc₂⟩)]
  have h123 : ds₁.length = 1 ∨ ds₁.length = 2 ∨ ds₁.length = 3 := by omega
  rcases h123 with hl | hl | hl
  · rw [iniTryAddr_none ci (by omega), iniTryAddr_none ci (by omega),
      iniTryAddr_full ci hl.symm hv]
  · rw [iniTryAddr_none ci (by omega), iniTryAddr_full ci hl.symm hv]
  · rw [iniTryAddr_full ci hl.symm hv]

/-! ## Alternation and whole-line computation lemmas -/

theorem guiTryOp_eq (mn : List Char) {rest : List Char}
    {q : Nat × Option (List Char)}
    (h : matchOperandTail true guiWs (dropWs guiWs rest) = some q) :
    guiTryOp mn (mn ++ rest) =
      some (.code (String.mk ((mn ++ rest).take mn.length)) (some q.1)
        (q.2.map String.mk)) := by
  simp only [guiTryOp, stripLit_self, h]

theorem cliTryOp_eq (mn : List Char) (op : Opcode) {rest : List Char}
    {q : Nat × Option (List Char)}
    (h : matchOperandTail false cliWs (dropWs cliWs rest) = some q) :
    cliTryOp mn op (mn ++ rest) = some (.code op (some q.1) q.2) := by
  simp only [cliTryOp, stripLit_self, h]

theorem guiTryStop_eq {rest : List Char} {com : Option (List Char)}
    (h : commentTail guiWs (dropWs guiWs rest) = some com) :
    guiTryStop (['S', 'T', 'O', 'P'] ++ rest) =
      some (.code (String.mk ((['S', 'T', 'O', 'P'] ++ rest).take 4)) none
        (com.map String.mk)) := by
  simp only [guiTryStop, stripLit_self, h]

theorem cliTryStop_eq {rest : List Char} {com : Option (List Char)}
    (h : commentTail cliWs (dropWs cliWs rest) = some com) :
    cliTryStop (['S', 'T', 'O', 'P'] ++ rest) = some (.code .STOP none com) := by
  simp only [cliTryStop, stripLit_self, h]

/-- The regex alternation returns the result of the matching alternative
when every alternative either fails or agrees with it. -/
theorem firstGui_eq {mns : List (List Char)} {cs : List Char} {g : GLine}
    (h : ∀ mn ∈ mns, guiTryOp mn cs = none ∨ guiTryOp mn cs = some g)
    (hex : ∃ mn ∈ mns, guiTryOp mn cs = some g) :
    firstGui mns cs = some g := by
  induction mns with
  | nil =>
    obtain ⟨mn, hmem, _⟩ := hex
    exact absurd hmem (List.not_mem_nil mn)
  | cons m ms ih =>
    rcases h m (List.mem_cons_self m ms) with hm | hm
    · simp only [firstGui, hm]
      apply ih (fun mn hmn => h mn (List.mem_cons_of_mem m hmn))
      obtain ⟨mn, hmem, hs⟩ := hex
      rcases List.mem_cons.mp hmem with rfl | hmem'
      · rw [hm] at hs
        exact absurd hs (by simp)
      · exact ⟨mn, hmem', hs⟩
    · simp only [firstGui, hm]

/-- Same, for the CLI list of instruction regexes. -/
theorem firstMatch_eq {mns : List (List Char × Opcode)} {cs : List Char} {g : CLine}
    (h : ∀ p ∈ mns, cliTryOp p.1 p.2 cs = none ∨ cliTryOp p.1 p.2 cs = some g)
    (hex : ∃ p ∈ mns, cliTryOp p.1 p.2 cs = some g) :
    firstMatch mns cs = some g := by
  induction mns with
  | nil =>
    obtain ⟨p, hmem, _⟩ := hex
    exact absurd hmem (List.not_mem_nil p)
  | cons m ms ih =>
    obtain ⟨mn, op⟩ := m
    rcases h (mn, op) (List.mem_cons_self (mn, op) ms) with hm | hm
    · simp only [firstMatch, hm]
      apply ih (fun p hp => h p (List.mem_cons_of_mem (mn, op) hp))
      obtain ⟨p, hmem, hs⟩ := hex
      rcases List.mem_cons.mp hmem with rfl | hmem'
      · rw [hm] at hs
        exact absurd hs (by simp)
      · exact ⟨p, hmem', hs⟩
    · simp only [firstMatch, hm]

/-- The alternative `STORE` fails on a line whose mnemonic is `STO`: after
the common `STO` prefix the line continues with whitespace or the `0` of
the operand, never `R`. -/
theorem guiTryOp_STORE_STO {w₁ : List Char} (hw₁ : ∀ a ∈ w₁, guiWs a = true)
    (rest : List Char) :
    guiTryOp ['S', 'T', 'O', 'R', 'E'] (['S', 'T', 'O'] ++ (w₁ ++ '0' :: rest)) =
      none := by
  have hs : stripLit true ['S', 'T', 'O', 'R', 'E']
      (['S', 'T', 'O'] ++ (w₁ ++ '0' :: rest)) = none := by
    show stripLit true ['R', 'E'] (w₁ ++ '0' :: rest) = none
    cases w₁ with
    | nil => rfl
    | cons a w' =>
      rcases guiWs_eq (hw₁ a (List.mem_cons_self a w')) with ha | ha <;>
        rw [ha] <;> rfl
  simp only [guiTryOp, hs]

theorem guiLineParse_core {cs : List Char} (hrs : rstrip cs = cs)
    (hdw : dropWs guiWs cs = cs) {g : GLine} (hcore : guiMatchCore cs = some g) :
    guiLineParse cs = some g := by
  unfold guiLineParse guiMatchLine
  rw [hrs, hdw, hcore]

theorem guiMatchCore_firstGui {cs : List Char}
    (hini : stripLit true ['I', 'N', 'I'] cs = none) {g : GLine}
    (hfg : firstGui guiMnemonics cs = some g) :
    guiMatchCore cs = some g := by
  simp only [guiMatchCore, hini, hfg]

theorem guiMatchCore_stopLine {cs : List Char}
    (hini : stripLit true ['I', 'N', 'I'] cs = none)
    (hfg : firstGui guiMnemonics cs = none) {g : GLine}
    (hstop : guiTryStop cs = some g) :
    guiMatchCore cs = some g := by
  simp only [guiMatchCore, hini, hfg, hstop]

/-- Recognition of a GUI instruction line built from a mnemonic, a
whitespace gap, and an operand-and-tail block starting with the `0` of
the operand: the result does not depend on the gap. -/
theorem guiLineParse_instr {mn : List Char} (hmn : mn ∈ guiMnemonics)
    {w₁ rest : List Char} (hw₁ : ∀ a ∈ w₁, guiWs a = true)
    {q : Nat × Option (List Char)}
    (hq : matchOperandTail true guiWs ('0' :: rest) = some q)
    (hrs : rstrip (mn ++ (w₁ ++ '0' :: rest)) = mn ++ (w₁ ++ '0' :: rest)) :
    guiLineParse (mn ++ (w₁ ++ '0' :: rest)) =
      some (.code (String.mk mn) (some q.1) (q.2.map String.mk)) := by
  have hq' : matchOperandTail true guiWs (dropWs guiWs (w₁ ++ '0' :: rest)) = some q := by
    rw [dropWs_sat_cons hw₁ (by decide)]
    exact hq
  have hsucc := guiTryOp_eq mn hq'
  have hmem := hmn
  simp only [guiMnemonics, List.mem_cons, List.not_mem_nil, or_false] at hmem
  rcases hmem with rfl | rfl | rfl | rfl | rfl | rfl | rfl | rfl | rfl | rfl <;>
  · refine guiLineParse_core hrs (dropWs_cons_false (by decide) _)
      (guiMatchCore_firstGui ?_ (firstGui_eq ?_ ⟨_, hmn, hsucc⟩))
    · rfl
    · intro mn' hmn'
      simp only [guiMnemonics, List.mem_cons, List.not_mem_nil, or_false] at hmn'
      rcases hmn' with rfl | rfl | rfl | rfl | rfl | rfl | rfl | rfl | rfl | rfl <;>
        first
        | exact Or.inr hsucc
        | exact Or.inl rfl
        | exact Or.inl (guiTryOp_STORE_STO hw₁ rest)

theorem cliMatchLine_code_core {cs : List Char} (hini : cliMatchIni cs = none)
    (hdw : dropWs cliWs cs = cs) {g : CLine}
    (hfm : firstMatch cliMnemonics cs = some g) :
    cliMatchLine cs = some g := by
  simp only [cliMatchLine, hini, cliMatchRest, hdw, hfm]

/-- Recognition of a CLI instruction line built the same way. -/
theorem cliMatchLine_instr {mn : List Char} {op : Opcode}
    (hmn : (mn, op) ∈ cliMnemonics)
    {w₁ rest : List Char} (hw₁ : ∀ a ∈ w₁, cliWs a = true)
    {q : Nat × Option (List Char)}
    (hq : matchOperandTail false cliWs ('0' :: rest) = some q) :
    cliMatchLine (mn ++ (w₁ ++ '0' :: rest)) = some (.code op (some q.1) q.2) := by
  have hq' : matchOperandTail false cliWs (dropWs cliWs (w₁ ++ '0' :: rest)) = some q := by
    rw [dropWs_sat_cons hw₁ (by decide)]
    exact hq
  have hsucc := cliTryOp_eq mn op hq'
  have hmem := hmn
  simp only [cliMnemonics, List.mem_cons, List.not_mem_nil, or_false,
    Prod.mk.injEq] at hmem
  rcases hmem with ⟨rfl, rfl⟩ | ⟨rfl, rfl⟩ | ⟨rfl, rfl⟩ | ⟨rfl, rfl⟩ |
    ⟨rfl, rfl⟩ | ⟨rfl, rfl⟩ | ⟨rfl, rfl⟩ <;>
  · refine cliMatchLine_code_core ?_ (dropWs_cons_false (by decide) _)
      (firstMatch_eq ?_ ⟨_, hmn, hsucc⟩)
    · rfl
    · intro p hp
      simp only [cliMnemonics, List.mem_cons, List.not_mem_nil, or_false] at hp
      rcases hp with rfl | rfl | rfl | rfl | rfl | rfl | rfl <;>
        first
        | exact Or.inr hsucc
        | exact Or.inl rfl

/-- Recognition of a GUI `STOP` line with an explicit rest of line. -/
theorem guiLineParse_stopLine {rest : List Char} {com : Option (List Char)}
    (h : commentTail guiWs (dropWs guiWs rest) = some com)
    (hrs : rstrip ('S' :: 'T' :: 'O' :: 'P' :: rest) =
      'S' :: 'T' :: 'O' :: 'P' :: rest) :
    guiLineParse ('S' :: 'T' :: 'O' :: 'P' :: rest) =
      some (.code "STOP" none (com.map String.mk)) := by
  have hstop : guiTryStop ('S' :: 'T' :: 'O' :: 'P' :: rest) =
      some (.code "STOP" none (com.map String.mk)) := guiTryStop_eq h
  refine guiLineParse_core hrs (dropWs_cons_false (by decide) _)
    (guiMatchCore_stopLine ?_ ?_ hstop)
  · rfl
  · rfl

/-- Recognition of a CLI `STOP` line with an explicit rest of line. -/
theorem cliMatchLine_stopLine {rest : List Char} {com : Option (List Char)}
    (h : commentTail cliWs (dropWs cliWs rest) = some com) :
    cliMatchLine ('S' :: 'T' :: 'O' :: 'P' :: rest) =
      some (.code .STOP none com) := by
  have hstop : cliTryStop ('S' :: 'T' :: 'O' :: 'P' :: rest) =
      some (.code .STOP none com) := cliTryStop_eq h
  have hdw : dropWs cliWs ('S' :: 'T' :: 'O' :: 'P' :: rest) =
      'S' :: 'T' :: 'O' :: 'P' :: rest := dropWs_cons_false (by decide) _
  have hfm : firstMatch cliMnemonics ('S' :: 'T' :: 'O' :: 'P' :: rest) = none := rfl
  have hini : cliMatchIni ('S' :: 'T' :: 'O' :: 'P' :: rest) = none := rfl
  simp only [cliMatchLine, hini, cliMatchRest, hdw, hfm, hstop]

/-- Recognition of a GUI `INI` line with an explicit rest of line. -/
theorem guiLineParse_iniLine {rest : List Char} {a v : Nat}
    (h : matchIniOperands true guiWs (dropWs guiWs rest) = some (a, v))
    (hrs : rstrip ('I' :: 'N' :: 'I' :: rest) = 'I' :: 'N' :: 'I' :: rest) :
    guiLineParse ('I' :: 'N' :: 'I' :: rest) = some (.ini a v) := by
  refine guiLineParse_core hrs (dropWs_cons_false (by decide) _) ?_
  have hs : stripLit true ['I', 'N', 'I'] ('I' :: 'N' :: 'I' :: rest) = some rest := rfl
  simp only [guiMatchCore, hs, h]

/-- Recognition of a CLI `INI` line with an explicit rest of line. -/
theorem cliMatchLine_iniLine {rest : List Char} {a v : Nat}
    (h : matchIniOperands false cliWs (dropWs cliWs rest) = some (a, v)) :
    cliMatchLine ('I' :: 'N' :: 'I' :: rest) = some (.ini a v) := by
  have hs : stripLit false ['I', 'N', 'I'] ('I' :: 'N' :: 'I' :: rest) = some rest := rfl
  simp only [cliMatchLine, cliMatchIni, hs, h]

theorem cliWs_not_semi {a : Char} (h : cliWs a = true) : (a == ';') = false := by
  rw [cliWs_eq h]; rfl

/-! ## Claim C8 -/

/-- C8 counterexample: two failures of the claim on the CLI parser.
Leading whitespace: the initializer regex has no leading-whitespace
pattern, so `INI 0x10 0x005` preceded by a space matches no recognized
form, while without the space it is an initializer.  Trailing
whitespace: the comment group `(;+ *(.*))?$` captures to the end of the
line, so a trailing space appended to `JGE 0x2 ;c` changes the captured
comment from `"c"` to `"c "` — a different parse result. -/
theorem C8_counterexample :
    cliMatchLine "INI 0x10 0x005".toList = some (.ini 16 5) ∧
    cliMatchLine " INI 0x10 0x005".toList = none ∧
    cliMatchLine "JGE 0x2 ;c".toList = some (.code .JGE (some 2) (some ['c'])) ∧
    cliMatchLine "JGE 0x2 ;c ".toList =
      some (.code .JGE (some 2) (some ['c', ' '])) :=
  ⟨rfl, rfl, rfl, rfl⟩

/-- C8 (amended): whitespace permissiveness of the two parsers.

GUI (whitespace class `[ \t]`): (1) leading whitespace never changes a
line's parse result; (2) trailing whitespace is stripped before matching
(`rstrip`), so it never changes the result; (3)-(4) an instruction line
parses to its mnemonic (case preserved), operand value and captured
comment whatever whitespace stands between the mnemonic, the operand,
the `;` and the comment text; (5)-(6) the same for the `STOP` form;
(7) the same for the `INI` form and its two operands.

CLI (whitespace class: the space character only): (8) leading spaces
never change the result of a line that is not an initializer;
(9) an indented line starting with `I` matches no form — in particular a
space-indented `INI` line is a syntax error; (10)-(13) instruction and
`STOP` lines parse to the same opcode, operand and captured comment
whatever spaces stand around the mnemonic, operand and comment marker —
the captured comment being the verbatim text to the end of the line, so
whitespace *inside* it (e.g. appended to the line) is part of the
result, as the counterexample shows; (14) the same for the `INI` form
with any accepted tail. -/
theorem C8_whitespace :
    (∀ (w cs : List Char), (∀ a ∈ w, guiWs a = true) →
      guiLineParse (w ++ cs) = guiLineParse cs) ∧
    (∀ (w cs : List Char), (∀ a ∈ w, isPyWs a = true) →
      guiLineParse (cs ++ w) = guiLineParse cs) ∧
    (∀ (mn : List Char), mn ∈ guiMnemonics →
      ∀ (w₁ ds w₂ : List Char), (∀ a ∈ w₁, guiWs a = true) →
      (∀ a ∈ ds, isHexCh a = true) → 1 ≤ ds.length → ds.length ≤ 3 →
      (∀ a ∈ w₂, guiWs a = true) →
      guiLineParse (mn ++ (w₁ ++ ('0' :: 'x' :: (ds ++ w₂)))) =
        some (.code (String.mk mn) (some (hexToNat ds)) none)) ∧
    (∀ (mn : List Char), mn ∈ guiMnemonics →
      ∀ (w₁ ds w₂ w₃ : List Char) (c : Char) (tc : List Char),
      (∀ a ∈ w₁, guiWs a = true) → (∀ a ∈ ds, isHexCh a = true) →
      1 ≤ ds.length → ds.length ≤ 3 → (∀ a ∈ w₂, guiWs a = true) →
      (∀ a ∈ w₃, guiWs a = true) → guiWs c = false → (c == ';') = false →
      rstrip (c :: tc) = c :: tc →
      guiLineParse (mn ++ (w₁ ++ ('0' :: 'x' ::
          (ds ++ (w₂ ++ (';' :: (w₃ ++ (c :: tc)))))))) =
        some (.code (String.mk mn) (some (hexToNat ds))
          (some (String.mk (c :: tc))))) ∧
    (∀ w₁ : List Char, (∀ a ∈ w₁, guiWs a = true) →
      guiLineParse ('S' :: 'T' :: 'O' :: 'P' :: w₁) =
        some (.code "STOP" none none)) ∧
    (∀ (w₁ w₃ : List Char) (c : Char) (tc : List Char),
      (∀ a ∈ w₁, guiWs a = true) → (∀ a ∈ w₃, guiWs a = true) →
      guiWs c = false → (c == ';') = false → rstrip (c :: tc) = c :: tc →
      guiLineParse ('S' :: 'T' :: 'O' :: 'P' :: (w₁ ++ (';' :: (w₃ ++ (c :: tc))))) =
        some (.code "STOP" none (some (String.mk (c :: tc))))) ∧
    (∀ (w₁ ds₁ : List Char) (c₂ : Char) (w₂ ds₂ t : List Char),
      (∀ a ∈ w₁, guiWs a = true) → (∀ a ∈ ds₁, isHexCh a = true) →
      1 ≤ ds₁.length → ds₁.length ≤ 3 → guiWs c₂ = true →
      (∀ a ∈ w₂, guiWs a = true) → (∀ a ∈ ds₂, isHexCh a = true) →
      1 ≤ ds₂.length → ds₂.length ≤ 3 → tailOk guiWs t = true → rstrip t = t →
      guiLineParse ('I' :: 'N' :: 'I' :: (w₁ ++ ('0' :: 'x' ::
          (ds₁ ++ (c₂ :: (w₂ ++ ('0' :: 'x' :: (ds₂ ++ t)))))))) =
        some (.ini (hexToNat ds₁) (hexToNat ds₂))) ∧
    (∀ (w l : List Char) (r : CLine), (∀ a ∈ w, cliWs a = true) →
      cliMatchLine l = some r → (∀ a v, r ≠ .ini a v) →
      cliMatchLine (w ++ l) = some r) ∧
    (∀ (w cs : List Char), (∀ a ∈ w, cliWs a = true) → w ≠ [] →
      cliMatchLine (w ++ ('I' :: cs)) = none) ∧
    (∀ (mn : List Char) (op : Opcode), (mn, op) ∈ cliMnemonics →
      ∀ (w₁ ds w₂ : List Char), (∀ a ∈ w₁, cliWs a = true) →
      (∀ a ∈ ds, isHexCh a = true) → 1 ≤ ds.length → ds.length ≤ 3 →
      (∀ a ∈ w₂, cliWs a = true) →
      cliMatchLine (mn ++ (w₁ ++ ('0' :: 'x' :: (ds ++ w₂)))) =
        some (.code op (some (hexToNat ds)) none)) ∧
    (∀ (mn : List Char) (op : Opcode), (mn, op) ∈ cliMnemonics →
      ∀ (w₁ ds w₂ w₃ : List Char) (c : Char) (tc : List Char),
      (∀ a ∈ w₁, cliWs a = true) → (∀ a ∈ ds, isHexCh a = true) →
      1 ≤ ds.length → ds.length ≤ 3 → (∀ a ∈ w₂, cliWs a = true) →
      (∀ a ∈ w₃, cliWs a = true) → cliWs c = false → (c == ';') = false →
      cliMatchLine (mn ++ (w₁ ++ ('0' :: 'x' ::
          (ds ++ (w₂ ++ (';' :: (w₃ ++ (c :: tc)))))))) =
        some (.code op (some (hexToNat ds)) (some (c :: tc)))) ∧
    (∀ w₁ : List Char, (∀ a ∈ w₁, cliWs a = true) →
      cliMatchLine ('S' :: 'T' :: 'O' :: 'P' :: w₁) =
        some (.code .STOP none none)) ∧
    (∀ (w₁ w₃ : List Char) (c : Char) (tc : List Char),
      (∀ a ∈ w₁, cliWs a = true) → (∀ a ∈ w₃, cliWs a = true) →
      cliWs c = false → (c == ';') = false →
      cliMatchLine ('S' :: 'T' :: 'O' :: 'P' :: (w₁ ++ (';' :: (w₃ ++ (c :: tc))))) =
        some (.code .STOP none (some (c :: tc)))) ∧
    (∀ (w₁ ds₁ : List Char) (c₂ : Char) (w₂ ds₂ t : List Char),
      (∀ a ∈ w₁, cliWs a = true) → (∀ a ∈ ds₁, isHexCh a = true) →
      1 ≤ ds₁.length → ds₁.length ≤ 3 → cliWs c₂ = true →
      (∀ a ∈ w₂, cliWs a = true) → (∀ a ∈ ds₂, isHexCh a = true) →
      1 ≤ ds₂.length → ds₂.length ≤ 3 → tailOk cliWs t = true →
      cliMatchLine ('I' :: 'N' :: 'I' :: (w₁ ++ ('0' :: 'x' ::
          (ds₁ ++ (c₂ :: (w₂ ++ ('0' :: 'x' :: (ds₂ ++ t)))))))) =
        some (.ini (hexToNat ds₁) (hexToNat ds₂))) := by
  refine ⟨fun w cs hw => guiLineParse_ws_lead hw cs,
    fun w cs hw => guiLineParse_ws_suffix hw cs,
    ?_, ?_, ?_, ?_, ?_, ?_, ?_, ?_, ?_, ?_, ?_, ?_⟩
  · -- (3) GUI instruction, no comment
    intro mn hmn w₁ ds w₂ hw₁ hds h1 h3 hw₂
    have hassoc : mn ++ (w₁ ++ ('0' :: 'x' :: (ds ++ w₂))) =
        (mn ++ (w₁ ++ ('0' :: 'x' :: ds))) ++ w₂ := by simp
    rw [hassoc, guiLineParse_ws_suffix (fun a ha => guiWs_pyws (hw₂ a ha))]
    have hq : matchOperandTail true guiWs ('0' :: 'x' :: ds) =
        some (hexToNat ds, none) := by
      have hct : commentTail guiWs (dropWs guiWs ([] : List Char)) = some none := rfl
      have h0 := matchOperandTail_eq true hds h1 h3 (Or.inl rfl) hct
      rwa [List.append_nil] at h0
    have hrs : rstrip (mn ++ (w₁ ++ ('0' :: 'x' :: ds))) =
        mn ++ (w₁ ++ ('0' :: 'x' :: ds)) := by
      rcases ds.eq_nil_or_concat' with rfl | ⟨ds', d, rfl⟩
      · simp at h1
      · have hd : isHexCh d = true := hds d (by simp)
        have hassoc2 : mn ++ (w₁ ++ ('0' :: 'x' :: (ds' ++ [d]))) =
            (mn ++ (w₁ ++ ('0' :: 'x' :: ds'))) ++ [d] := by simp
        rw [hassoc2]
        exact rstrip_fix_append (rstrip_single (hex_not_pyws hd)) (by simp) _
    exact guiLineParse_instr hmn hw₁ hq hrs
  · -- (4) GUI instruction with comment
    intro mn hmn w₁ ds w₂ w₃ c tc hw₁ hds h1 h3 hw₂ hw₃ hc hcs hfix
    have hq : matchOperandTail true guiWs
        ('0' :: 'x' :: (ds ++ (w₂ ++ (';' :: (w₃ ++ (c :: tc)))))) =
        some (hexToNat ds, some (c :: tc)) :=
      matchOperandTail_eq true hds h1 h3
        (boundary_sat (fun a ha => guiWs_not_hex ha) hw₂ (by decide) _)
        (commentTail_comment (fun a ha => guiWs_not_semi ha) (by decide)
          hw₂ hw₃ hc hcs tc)
    have hrs : rstrip (mn ++ (w₁ ++ ('0' :: 'x' ::
        (ds ++ (w₂ ++ (';' :: (w₃ ++ (c :: tc)))))))) =
        mn ++ (w₁ ++ ('0' :: 'x' :: (ds ++ (w₂ ++ (';' :: (w₃ ++ (c :: tc))))))) := by
      have hassoc : mn ++ (w₁ ++ ('0' :: 'x' ::
          (ds ++ (w₂ ++ (';' :: (w₃ ++ (c :: tc))))))) =
          (mn ++ (w₁ ++ ('0' :: 'x' :: (ds ++ (w₂ ++ (';' :: w₃)))))) ++ (c :: tc) := by
        simp
      rw [hassoc]
      exact rstrip_fix_append hfix (by simp) _
    exact guiLineParse_instr hmn hw₁ hq hrs
  · -- (5) GUI STOP, no comment
    intro w₁ hw₁
    have hassoc : 'S' :: 'T' :: 'O' :: 'P' :: w₁ =
        ('S' :: 'T' :: 'O' :: 'P' :: ([] : List Char)) ++ w₁ := by simp
    rw [hassoc, guiLineParse_ws_suffix (fun a ha => guiWs_pyws (hw₁ a ha))]
    have h : commentTail guiWs (dropWs guiWs ([] : List Char)) = some none := rfl
    exact guiLineParse_stopLine h (by decide)
  · -- (6) GUI STOP with comment
    intro w₁ w₃ c tc hw₁ hw₃ hc hcs hfix
    have hrs : rstrip ('S' :: 'T' :: 'O' :: 'P' :: (w₁ ++ (';' :: (w₃ ++ (c :: tc))))) =
        'S' :: 'T' :: 'O' :: 'P' :: (w₁ ++ (';' :: (w₃ ++ (c :: tc)))) := by
      have hassoc : 'S' :: 'T' :: 'O' :: 'P' :: (w₁ ++ (';' :: (w₃ ++ (c :: tc)))) =
          ('S' :: 'T' :: 'O' :: 'P' :: (w₁ ++ (';' :: w₃))) ++ (c :: tc) := by simp
      rw [hassoc]
      exact rstrip_fix_append hfix (by simp) _
    exact guiLineParse_stopLine
      (commentTail_comment (fun a ha => guiWs_not_semi ha) (by decide)
        hw₁ hw₃ hc hcs tc) hrs
  · -- (7) GUI INI
    intro w₁ ds₁ c₂ w₂ ds₂ t hw₁ hds₁ h11 h13 hc₂ hw₂ hds₂ h21 h23 ht hfix
    have h : matchIniOperands true guiWs (dropWs guiWs (w₁ ++ ('0' :: 'x' ::
        (ds₁ ++ (c₂ :: (w₂ ++ ('0' :: 'x' :: (ds₂ ++ t)))))))) =
        some (hexToNat ds₁, hexToNat ds₂) := by
      rw [dropWs_sat_cons hw₁ (by decide)]
      exact matchIniOperands_eq true (fun a ha => guiWs_not_hex ha) (by decide)
        hds₁ h11 h13 hc₂ hw₂ hds₂ h21 h23 ht
    have hrs : rstrip ('I' :: 'N' :: 'I' :: (w₁ ++ ('0' :: 'x' ::
        (ds₁ ++ (c₂ :: (w₂ ++ ('0' :: 'x' :: (ds₂ ++ t)))))))) =
        'I' :: 'N' :: 'I' :: (w₁ ++ ('0' :: 'x' ::
        (ds₁ ++ (c₂ :: (w₂ ++ ('0' :: 'x' :: (ds₂ ++ t))))))) := by
      cases t with
      | nil =>
        rcases ds₂.eq_nil_or_concat' with rfl | ⟨ds₂', d, rfl⟩
        · simp at h21
        · have hd : isHexCh d = true := hds₂ d (by simp)
          have hassoc : 'I' :: 'N' :: 'I' :: (w₁ ++ ('0' :: 'x' ::
              (ds₁ ++ (c₂ :: (w₂ ++ ('0' :: 'x' :: ((ds₂' ++ [d]) ++ ([] : List Char)))))))) =
              ('I' :: 'N' :: 'I' :: (w₁ ++ ('0' :: 'x' ::
              (ds₁ ++ (c₂ :: (w₂ ++ ('0' :: 'x' :: ds₂'))))))) ++ [d] := by simp
          rw [hassoc]
          exact rstrip_fix_append (rstrip_single (hex_not_pyws hd)) (by simp) _
      | cons c₀ t₀ =>
        have hassoc : 'I' :: 'N' :: 'I' :: (w₁ ++ ('0' :: 'x' ::
            (ds₁ ++ (c₂ :: (w₂ ++ ('0' :: 'x' :: (ds₂ ++ (c₀ :: t₀)))))))) =
            ('I' :: 'N' :: 'I' :: (w₁ ++ ('0' :: 'x' ::
            (ds₁ ++ (c₂ :: (w₂ ++ ('0' :: 'x' :: ds₂))))))) ++ (c₀ :: t₀) := by simp
        rw [hassoc]
        exact rstrip_fix_append hfix (by simp) _
    exact guiLineParse_iniLine h hrs
  · -- (8) CLI leading spaces on a non-initializer line
    intro w l r hw hr hni
    cases w with
    | nil => simpa using hr
    | cons a w' =>
      have hini : cliMatchIni l = none := by
        cases hI : cliMatchIni l with
        | none => rfl
        | some cl =>
          obtain ⟨a0, v0, hcl⟩ := cliMatchIni_shape l cl hI
          have hline : cliMatchLine l = some cl := by
            unfold cliMatchLine
            rw [hI]
          rw [hline] at hr
          have hrc : cl = r := Option.some.inj hr
          have hra : r = CLine.ini a0 v0 := by rw [← hrc]; exact hcl
          exact absurd hra (hni a0 v0)
      have ha := cliWs_eq (hw a (List.mem_cons_self a w'))
      subst ha
      have hini2 : cliMatchIni (' ' :: (w' ++ l)) = none := cliMatchIni_space _
      rw [List.cons_append, cliMatchLine_eq_rest _ hini2, cliMatchRest_cons_space,
        cliMatchRest_sat (fun x hx => hw x (List.mem_cons_of_mem ' ' hx)),
        ← cliMatchLine_eq_rest l hini]
      exact hr
  · -- (9) CLI indentation before an I-headed line is a syntax error
    intro w cs hw hne
    cases w with
    | nil => exact absurd rfl hne
    | cons a w' =>
      have ha := cliWs_eq (hw a (List.mem_cons_self a w'))
      subst ha
      have hini2 : cliMatchIni (' ' :: (w' ++ 'I' :: cs)) = none := cliMatchIni_space _
      rw [List.cons_append, cliMatchLine_eq_rest _ hini2, cliMatchRest_cons_space,
        cliMatchRest_sat (fun x hx => hw x (List.mem_cons_of_mem ' ' hx))]
      rfl
  · -- (10) CLI instruction, no comment
    intro mn op hmn w₁ ds w₂ hw₁ hds h1 h3 hw₂
    have hq : matchOperandTail false cliWs ('0' :: 'x' :: (ds ++ w₂)) =
        some (hexToNat ds, none) :=
      matchOperandTail_eq false hds h1 h3
        (boundary_ws (fun a ha => cliWs_not_hex ha) hw₂)
        (commentTail_ws_nil hw₂)
    exact cliMatchLine_instr hmn hw₁ hq
  · -- (11) CLI instruction with comment
    intro mn op hmn w₁ ds w₂ w₃ c tc hw₁ hds h1 h3 hw₂ hw₃ hc hcs
    have hq : matchOperandTail false cliWs
        ('0' :: 'x' :: (ds ++ (w₂ ++ (';' :: (w₃ ++ (c :: tc)))))) =
        some (hexToNat ds, some (c :: tc)) :=
      matchOperandTail_eq false hds h1 h3
        (boundary_sat (fun a ha => cliWs_not_hex ha) hw₂ (by decide) _)
        (commentTail_comment (fun a ha => cliWs_not_semi ha) (by decide)
          hw₂ hw₃ hc hcs tc)
    exact cliMatchLine_instr hmn hw₁ hq
  · -- (12) CLI STOP, no comment
    intro w₁ hw₁
    exact cliMatchLine_stopLine (commentTail_ws_nil hw₁)
  · -- (13) CLI STOP with comment
    intro w₁ w₃ c tc hw₁ hw₃ hc hcs
    exact cliMatchLine_stopLine
      (commentTail_comment (fun a ha => cliWs_not_semi ha) (by decide)
        hw₁ hw₃ hc hcs tc)
  · -- (14) CLI INI
    intro w₁ ds₁ c₂ w₂ ds₂ t hw₁ hds₁ h11 h13 hc₂ hw₂ hds₂ h21 h23 ht
    have h : matchIniOperands false cliWs (dropWs cliWs (w₁ ++ ('0' :: 'x' ::
        (ds₁ ++ (c₂ :: (w₂ ++ ('0' :: 'x' :: (ds₂ ++ t)))))))) =
        some (hexToNat ds₁, hexToNat ds₂) := by
      rw [dropWs_sat_cons hw₁ (by decide)]
      exact matchIniOperands_eq false (fun a ha => cliWs_not_hex ha) (by decide)
        hds₁ h11 h13 hc₂ hw₂ hds₂ h21 h23 ht
    exact cliMatchLine_iniLine h

/-- C8 witness: the amended theorem evaluated at concrete lines — a
tab-indented GUI line, a GUI instruction with a tab inside the gap and
trailing spaces, a GUI `STOP` with comment, a GUI `INI` with a tab gap,
a space-indented CLI instruction, a rejected space-indented CLI `INI`,
a CLI instruction whose captured comment keeps its trailing space, and
a CLI `INI` with a wide gap. -/
theorem C8_witness :
    guiLineParse " \tINI 0x10 0x005".toList = guiLineParse "INI 0x10 0x005".toList ∧
    guiLineParse "LOAD \t 0x2f  ".toList = some (.code "LOAD" (some 47) none) ∧
    guiLineParse "STOP ;  hi".toList = some (.code "STOP" none (some "hi")) ∧
    guiLineParse "INI\t0x10 0x005".toList = some (.ini 16 5) ∧
    cliMatchLine "  LOAD 0x1".toList = some (.code .LOAD (some 1) none) ∧
    cliMatchLine " INI 0x1 0x2".toList = none ∧
    cliMatchLine "ADD  0x3 ; note ".toList =
      some (.code .ADD (some 3) (some "note ".toList)) ∧
    cliMatchLine "INI 0xa  0x7ff".toList = some (.ini 10 2047) := by
  refine ⟨?_, ?_, ?_, ?_, ?_, ?_, ?_, ?_⟩
  · exact C8_whitespace.1 [' ', '\t'] "INI 0x10 0x005".toList (by decide)
  · exact C8_whitespace.2.2.1 ['L', 'O', 'A', 'D'] (by decide)
      [' ', '\t', ' '] ['2', 'f'] [' ', ' ']
      (by decide) (by decide) (by decide) (by decide) (by decide)
  · exact C8_whitespace.2.2.2.2.2.1 [' '] [' ', ' '] 'h' ['i']
      (by decide) (by decide) (by decide) (by decide) rfl
  · exact C8_whitespace.2.2.2.2.2.2.1 ['\t'] ['1', '0'] ' ' [] ['0', '0', '5'] []
      (by decide) (by decide) (by decide) (by decide) (by decide)
      (by decide) (by decide) (by decide) (by decide) rfl rfl
  · exact C8_whitespace.2.2.2.2.2.2.2.1 [' ', ' '] "LOAD 0x1".toList
      (.code .LOAD (some 1) none) (by decide) rfl
      (fun a v h => CLine.noConfusion h)
  · exact C8_whitespace.2.2.2.2.2.2.2.2.1 [' '] "NI 0x1 0x2".toList
      (by decide) (by decide)
  · exact C8_whitespace.2.2.2.2.2.2.2.2.2.2.1 ['A', 'D', 'D'] .ADD (by decide)
      [' ', ' '] ['3'] [' '] [' '] 'n' "ote ".toList
      (by decide) (by decide) (by decide) (by decide) (by decide)
      (by decide) (by decide) (by decide)
  · exact C8_whitespace.2.2.2.2.2.2.2.2.2.2.2.2.2 [' '] ['a'] ' ' [' ']
      ['7', 'f', 'f'] []
      (by decide) (by decide) (by decide) (by decide) (by decide)
      (by decide) (by decide) (by decide) (by decide) rfl

end Mu0
